import Mathlib

/-!
Verification of the task-graph core of the `bob` agent repository.

The definitions below are a shallow embedding of the TypeScript sources:

* `src/src/dag/ExecutionDAG.ts` — the `ExecutionDAG` class (task map, readiness,
  validation with three-color DFS cycle detection, Kahn layering, status updates,
  queries);
* the PlanAct controller (`BobAgentPlanAct`): `executionPhase` (the Scheduler),
  `planningPhase`, `shouldReplan` and the `execute` plan/act/replan loop.

Modelling conventions:

* The JavaScript `Map<string, PlanNode>` is modelled as an insertion-ordered list
  of nodes with unique ids; `Map.set` keeps the position of an existing key and
  replaces its value.
* Task `result` values are `any` in the source and opaque to the core; they are
  modelled by the alias `Value := String`.
* The fields of `PlanNode` that the core never reads (`tool`, `toolInput`,
  `query`, `subagentConfig`, `metadata`, `executionMethod`) are absorbed into the
  opaque TaskRunner oracle and omitted from the record.
* The LLM planner and the per-task runner are opaque collaborators; they are
  parameters (`planner`, `run`) of the controller and scheduler functions.
* Recursive procedures whose termination rests on runtime state (the DFS of
  `hasCycles`, Kahn's queue loop) are written with an explicit fuel argument
  whose exhaustion branch is unreachable for the fuel the callers pass
  (the DFS greys a fresh node at every nesting level, and every Kahn iteration
  consumes a nonempty queue of never-repeating ids).
-/

/-- Task status enumeration (`src/types/dag.ts`). -/
inductive TaskStatus
  | pending
  | executing
  | completed
  | failed
deriving DecidableEq

/-- Opaque task result values (JS `any`); the core never inspects them. -/
abbrev Value := String

/-- A task node of the plan DAG (`PlanNode` in `src/types/dag.ts`), restricted to
the fields the graph/scheduler/controller core reads. -/
structure PlanNode where
  id : String
  action : String
  dependsOn : List String
  status : TaskStatus
  result : Option Value
  error : Option String
deriving DecidableEq

/-- The `ExecutionDAG` class state: its `tasks : Map<string, PlanNode>`,
modelled as the insertion-ordered list of values of the map (keys are the
`id` fields, unique by construction through `ofTasks`). -/
structure ExecutionDAG where
  tasks : List PlanNode
deriving DecidableEq

/-- `Map.set` semantics: replace the value of an existing key in place,
otherwise append at the end. -/
def mapSet (ts : List PlanNode) (t : PlanNode) : List PlanNode :=
  if ts.any (fun u => u.id == t.id) then
    ts.map (fun u => if u.id == t.id then t else u)
  else ts ++ [t]

/-- The `ExecutionDAG` constructor: `tasks.forEach(task => this.tasks.set(task.id, task))`. -/
def ExecutionDAG.ofTasks (l : List PlanNode) : ExecutionDAG :=
  ⟨l.foldl mapSet []⟩

/-- `getTask(id)`: `this.tasks.get(id)`. -/
def ExecutionDAG.getTask (d : ExecutionDAG) (id : String) : Option PlanNode :=
  d.tasks.find? (fun t => t.id == id)

/-- `getAllTasks()`: the map values in insertion order. -/
def ExecutionDAG.getAllTasks (d : ExecutionDAG) : List PlanNode :=
  d.tasks

/-- `updateTask(id, updates)`: `Object.assign` on the stored node if the id is
present, otherwise a silent no-op.  The three callers pass concrete field
updates, given here as the function `f`. -/
def ExecutionDAG.updateTask (d : ExecutionDAG) (id : String) (f : PlanNode → PlanNode) :
    ExecutionDAG :=
  ⟨d.tasks.map (fun t => if t.id == id then f t else t)⟩

/-- `markExecuting(taskId)`: `updateTask(taskId, { status: 'executing' })`. -/
def ExecutionDAG.markExecuting (d : ExecutionDAG) (id : String) : ExecutionDAG :=
  d.updateTask id (fun t => { t with status := TaskStatus.executing })

/-- `completeTask(taskId, result)`: sets status `completed` and the result. -/
def ExecutionDAG.completeTask (d : ExecutionDAG) (id : String) (r : Value) : ExecutionDAG :=
  d.updateTask id (fun t => { t with status := TaskStatus.completed, result := some r })

/-- `failTask(taskId, error)`: sets status `failed` and the error message. -/
def ExecutionDAG.failTask (d : ExecutionDAG) (id : String) (e : String) : ExecutionDAG :=
  d.updateTask id (fun t => { t with status := TaskStatus.failed, error := some e })

/-- `getReadyTasks()`: all pending tasks each of whose dependency ids resolves to
a task with status `completed` (a missing dependency is not completed). -/
def ExecutionDAG.getReadyTasks (d : ExecutionDAG) : List PlanNode :=
  d.tasks.filter (fun t =>
    t.status == TaskStatus.pending &&
    t.dependsOn.all (fun depId =>
      match d.getTask depId with
      | some dep => dep.status == TaskStatus.completed
      | none => false))

/-- `isComplete()`: every task has status `completed`. -/
def ExecutionDAG.isComplete (d : ExecutionDAG) : Bool :=
  d.tasks.all (fun t => t.status == TaskStatus.completed)

/-- `hasFailed()`: some task has status `failed`. -/
def ExecutionDAG.hasFailed (d : ExecutionDAG) : Bool :=
  d.tasks.any (fun t => t.status == TaskStatus.failed)

/-- `getFailedTasks()`. -/
def ExecutionDAG.getFailedTasks (d : ExecutionDAG) : List PlanNode :=
  d.tasks.filter (fun t => t.status == TaskStatus.failed)

/-- `DAGStats` record. -/
structure DAGStats where
  total : Nat
  pending : Nat
  executing : Nat
  completed : Nat
  failed : Nat
deriving DecidableEq

/-- `getStats()`: counts per status. -/
def ExecutionDAG.getStats (d : ExecutionDAG) : DAGStats where
  total := d.tasks.length
  pending := (d.tasks.filter (fun t => t.status == TaskStatus.pending)).length
  executing := (d.tasks.filter (fun t => t.status == TaskStatus.executing)).length
  completed := (d.tasks.filter (fun t => t.status == TaskStatus.completed)).length
  failed := (d.tasks.filter (fun t => t.status == TaskStatus.failed)).length

/-- `getDependencyResults(task)`: dependency id to its result, restricted to
dependencies that exist and carry a result. -/
def ExecutionDAG.getDependencyResults (d : ExecutionDAG) (t : PlanNode) :
    List (String × Value) :=
  t.dependsOn.foldl (fun acc depId =>
    match d.getTask depId with
    | some dep =>
      match dep.result with
      | some r => acc ++ [(depId, r)]
      | none => acc
    | none => acc) []

/-! ### Cycle detection (`hasCycles`)

Three-color DFS: white `0` = unvisited, grey `1` = on the recursion stack,
black `2` = done.  The colors map defaults missing entries to white
(`colors.get(depId) || 0` in the source), so it is modelled as a total
function `String → Nat`.  The `recStack` array of the source feeds only the
`console.error` diagnostic line, not the returned Boolean, and is omitted.
The recursion nests one level per freshly greyed node, so its depth is bounded
by the number of distinct ids; the fuel `dfsFuel` passed by `hasCycles` is
strictly larger, making the fuel-exhaustion branch (which conservatively
reports a cycle) unreachable. -/

/-- The mutable `colors` map of `hasCycles`. -/
abbrev Colors := String → Nat

/-- Point update of the colors map. -/
def setColor (c : Colors) (k : String) (v : Nat) : Colors :=
  fun x => if x == k then v else c x

/-- The `dependsOn` edges leaving node `id` in the task map. -/
def depsOf (g : List PlanNode) (id : String) : List String :=
  match g.find? (fun t => t.id == id) with
  | some t => t.dependsOn
  | none => []

/-- The `for (const depId of task.dependsOn)` loop inside `dfs`: `visit` is
the recursive `dfs` call made on white dependencies. -/
def dfsDeps (g : List PlanNode) (visit : Colors → String → Bool × Colors) :
    Colors → List String → Bool × Colors
  | c, [] => (false, c)
  | c, depId :: rest =>
    if c depId == 1 then (true, c)
    else if c depId == 0 then
      match visit c depId with
      | (true, c2) => (true, c2)
      | (false, c2) => dfsDeps g visit c2 rest
    else dfsDeps g visit c rest

/-- The recursive `dfs(taskId)` of `hasCycles`: grey the node, walk its
dependency edges, then blacken it; report `true` as soon as a grey node is
reached along an edge. -/
def dfsVisit (g : List PlanNode) : Nat → Colors → String → Bool × Colors
  | 0, c, _ => (true, c)
  | Nat.succ fuel, c, id =>
    let c1 := setColor c id 1
    match dfsDeps g (dfsVisit g fuel) c1 (depsOf g id) with
    | (true, c2) => (true, c2)
    | (false, c2) => (false, setColor c2 id 2)

/-- The outer loop of `hasCycles`: run `dfs` from every still-white node. -/
def hasCyclesLoop (g : List PlanNode) (fuel : Nat) (c : Colors) :
    List String → Bool
  | [] => false
  | id :: ids =>
    if c id == 0 then
      match dfsVisit g fuel c id with
      | (true, _) => true
      | (false, c2) => hasCyclesLoop g fuel c2 ids
    else hasCyclesLoop g fuel c ids

/-- Fuel for the DFS: strictly more than the number of node names in play. -/
def dfsFuel (g : List PlanNode) : Nat :=
  g.length + (g.map (fun t => t.dependsOn.length)).sum + 1

/-- `hasCycles()`: DFS from every node, all nodes initially white. -/
def ExecutionDAG.hasCycles (d : ExecutionDAG) : Bool :=
  hasCyclesLoop d.tasks (dfsFuel d.tasks) (fun _ => 0) (d.tasks.map (fun t => t.id))

/-- `ValidationResult`. -/
structure ValidationResult where
  valid : Bool
  errors : List String
deriving DecidableEq

/-- The referential-integrity error message of `validate`. -/
def missingDepMsg (taskId depId : String) : String :=
  "Task \"" ++ taskId ++ "\" depends on non-existent task \"" ++ depId ++ "\""

/-- Pass 1 of `validate`: one error per `dependsOn` entry that does not exist in
the map, in task-major order. -/
def missingDepErrors (d : ExecutionDAG) : List String :=
  d.tasks.foldl (fun acc t =>
    acc ++ (t.dependsOn.filter (fun depId =>
      !(d.tasks.any (fun u => u.id == depId)))).map (missingDepMsg t.id)) []

/-- `validate()`: referential integrity first, then the cycle check, which
contributes only the fixed message `"Cycle detected in task dependencies"`
(the reconstructed cycle path goes to `console.error` only). -/
def ExecutionDAG.validate (d : ExecutionDAG) : ValidationResult :=
  let errors := missingDepErrors d
  let errors := if d.hasCycles then errors ++ ["Cycle detected in task dependencies"] else errors
  { valid := errors.isEmpty, errors := errors }

/-! ### Execution layers (`getExecutionLayers`, Kahn's algorithm)

In-degrees are JS numbers that the loop may drive below zero, hence `Int`.
The in-degree map is initialized for every task id and only existing keys are
ever updated, so `degSet` updates in place.  Each iteration of the outer
`while` consumes the whole queue as one layer; the fuel `length + 1` is
enough because every queued id is a never-before-processed task id.  If the
number of emitted tasks differs from the task count the method throws,
modelled by `Except.error`. -/

/-- The `inDegree` map: insertion-ordered association list. -/
abbrev Degrees := List (String × Int)

/-- `inDegree.get(id)!`, with default `0` (every queried key is initialized). -/
def degGet (ds : Degrees) (id : String) : Int :=
  match ds.find? (fun p => p.1 == id) with
  | some p => p.2
  | none => 0

/-- `inDegree.set(id, v)` for an already-present key. -/
def degSet (ds : Degrees) (id : String) (v : Int) : Degrees :=
  ds.map (fun p => if p.1 == id then (p.1, v) else p)

/-- One step of the inner `for (const [depId, depTask] of this.tasks)` loop of
`getExecutionLayers`: if the scanned task depends on the just-processed `id`,
decrement its in-degree and enqueue it when the new degree is exactly `0`. -/
def decStep (id : String) (st : Degrees × List String) (u : PlanNode) :
    Degrees × List String :=
  if u.dependsOn.contains id then
    let nd := degGet st.1 u.id - 1
    (degSet st.1 u.id nd, if nd == 0 then st.2 ++ [u.id] else st.2)
  else st

/-- The inner loop of `getExecutionLayers`: after processing `id`, scan every
task of the map and decrement dependents (once per dependent task). -/
def decDeps (g : List PlanNode) (id : String) (st : Degrees × List String) :
    Degrees × List String :=
  g.foldl (decStep id) st

/-- The `for (const id of layerIds)` walk: look the task up, append it to the
current layer, and run the decrement pass. -/
def processIds (g : List PlanNode) :
    List String → List PlanNode × Degrees × List String →
      List PlanNode × Degrees × List String
  | [], st => st
  | id :: rest, (layer, degs, queue) =>
    match g.find? (fun t => t.id == id) with
    | some t =>
      let dq := decDeps g id (degs, queue)
      processIds g rest (layer ++ [t], dq.1, dq.2)
    | none => processIds g rest (layer, degs, queue)

/-- The outer `while (queue.length > 0)` loop of `getExecutionLayers`. -/
def kahnLoop (g : List PlanNode) :
    Nat → Degrees → List String → List (List PlanNode) → List (List PlanNode)
  | 0, _, _, acc => acc
  | Nat.succ fuel, degs, queue, acc =>
    if queue.isEmpty then acc
    else
      let st := processIds g queue ([], degs, [])
      kahnLoop g fuel st.2.1 st.2.2 (if st.1.isEmpty then acc else acc ++ [st.1])

/-- `getExecutionLayers()`: Kahn's algorithm; throws when the emitted task
count differs from the map size. -/
def ExecutionDAG.getExecutionLayers (d : ExecutionDAG) :
    Except String (List (List PlanNode)) :=
  let degs0 : Degrees := d.tasks.map (fun t => (t.id, (t.dependsOn.length : Int)))
  let queue0 := (d.tasks.filter (fun t => t.dependsOn.length == 0)).map (fun t => t.id)
  let layers := kahnLoop d.tasks (d.tasks.length + 1) degs0 queue0 []
  let processed := (layers.map List.length).sum
  if processed == d.tasks.length then Except.ok layers
  else
    Except.error ("Cycle detected: processed " ++ toString processed ++ " of " ++
      toString d.tasks.length ++ " tasks")

/-! ### Scheduler (`executionPhase` / `executeTask`)

`executeTask` routes the task to the TaskRunner (tool call, LLM query or
subagent), records `completed` with the result on success, and catches any
error, recording `failed` with the message — it never rethrows, so a task
failure cannot abort its siblings.  The runner is the oracle
`run : PlanNode → List (String × Value) → Except String Value` receiving the
task and its `getDependencyResults`.  The `Promise.all` batch settles every
dispatched task before readiness is recomputed; its per-task updates target
distinct pending ids, so the fold below is order-insensitive and matches the
concurrent settlement.  Per-iteration progress entries
(`logProgress(cycle, 'EXECUTION', ...)`) are accumulated alongside. -/

/-- The task runner oracle. -/
abbrev TaskRunner := PlanNode → List (String × Value) → Except String Value

/-- A progress-log entry (`AgentProgress`, timestamp omitted). -/
structure AgentProgress where
  step : Nat
  action : String
  observation : String
deriving DecidableEq

/-- The settlement of one dispatched task: `completeTask` on success,
`failTask` with the message on error (the catch block of `executeTask`). -/
def settleTask (run : TaskRunner) (d : ExecutionDAG) (t : PlanNode) : ExecutionDAG :=
  match run t (d.getDependencyResults t) with
  | Except.ok r => d.completeTask t.id r
  | Except.error e => d.failTask t.id e

/-- The `[Progress]` log line of `executionPhase`. -/
def execProgressMsg (d : ExecutionDAG) : String :=
  "Completed " ++ toString d.getStats.completed ++ "/" ++ toString d.getStats.total ++
    " tasks, " ++ toString d.getStats.failed ++ " failed"

/-- The `while (!dag.isComplete() && iterationCount < maxIterations)` loop of
`executionPhase` (at most 50 iterations): compute the ready set, break when it
is empty (whether or not failures block progress), otherwise mark the batch
executing, settle it, and log progress. -/
def execIter (run : TaskRunner) (cycle : Nat) :
    Nat → ExecutionDAG → List AgentProgress → ExecutionDAG × List AgentProgress
  | 0, d, prog => (d, prog)
  | Nat.succ fuel, d, prog =>
    if d.isComplete then (d, prog)
    else
      let ready := d.getReadyTasks
      if ready.isEmpty then (d, prog)
      else
        let d1 := ready.foldl (fun acc t => acc.markExecuting t.id) d
        let d2 := ready.foldl (settleTask run) d1
        execIter run cycle fuel d2
          (prog ++ [⟨cycle, "EXECUTION", execProgressMsg d2⟩])

/-- The Scheduler outcome record returned by `executionPhase`. -/
structure ExecOutcome where
  complete : Bool
  finalResult : Option Value
deriving DecidableEq

/-- Modelled from the spec: the `blockedByFailure` flag of the Scheduler
outcome (§4.2, glossary "Blocked-by-failure").  The source `executionPhase`
returns only `{ complete }`; the blocked-by-failure condition is the
`dag.hasFailed()` break read off the terminal graph. -/
def blockedByFailure (out : ExecOutcome) (d : ExecutionDAG) : Bool :=
  !out.complete && d.hasFailed

/-- `executionPhase(dag, cycle)`: drive the ready/dispatch/settle loop, then
report completion; on completion the final result is the last inserted task's
result (a string as stored, `JSON.stringify` being the identity on the opaque
`Value`). -/
def executionPhase (run : TaskRunner) (cycle : Nat) (d : ExecutionDAG) :
    ExecOutcome × ExecutionDAG × List AgentProgress :=
  let dp := execIter run cycle 50 d []
  if dp.1.isComplete then
    ({ complete := true, finalResult := dp.1.tasks.getLast?.bind (fun t => t.result) },
      dp.1, dp.2)
  else
    ({ complete := false, finalResult := none }, dp.1, dp.2)

/-! ### Controller (`BobAgentPlanAct.execute` / `planningPhase` / `shouldReplan`)

The planner (an LLM call in the source) is the oracle
`planner : Nat → String → List PlanNode` mapping the call index (1-based) and
the failure-context string embedded in the prompt to the task list of the
returned plan.  `planningPhase` resets every planned task to `pending`
(`status: 'pending'` in the task mapping), builds a fresh `ExecutionDAG`,
validates it (throwing on an invalid DAG) and computes the execution layers
for logging (propagating the layering throw).  Memory retrieval, tracing and
RL telemetry are side channels outside the control flow and are omitted.
The controller state carries, as observational instrumentation, the list of
planner invocations made so far (call index and context string). -/

/-- The failure-context block `previousContext` that `planningPhase` embeds in
the planning prompt when a previous DAG exists (template literal of the
source, after `trim()`; a missing `error` field prints as `undefined`). -/
def previousContext (d : ExecutionDAG) : String :=
  "PREVIOUS EXECUTION ATTEMPT:\n- Completed: " ++ toString d.getStats.completed ++
    " tasks\n- Failed: " ++ toString d.getStats.failed ++ " tasks\n" ++
    (if d.getFailedTasks.isEmpty then "" else
      "\nFailed tasks:\n" ++ String.intercalate "\n"
        (d.getFailedTasks.map (fun t =>
          "  - " ++ t.id ++ ": " ++ t.action ++ "\n    Error: " ++ t.error.getD "undefined"))) ++
    "\n\nPlease create a new plan that addresses these failures and completes the goal."

/-- The failure-context string `planningPhase` embeds in the prompt of a given
planner call (empty on the first call, when there is no previous DAG). -/
def planContext : Option ExecutionDAG → String
  | none => ""
  | some d => previousContext d

/-- `planningPhase(goal, previousDag)`: build the failure context, call the
planner, reset the returned tasks to `pending`, construct and validate a fresh
DAG (throwing `Invalid DAG: ...` on validation errors), and compute the
execution layers for the log (a layering throw propagates).  The planner is
consulted before validation, so the invocation happens even when the phase
then throws. -/
def plannedDag (planner : Nat → String → List PlanNode) (callIdx : Nat)
    (ctx : String) : ExecutionDAG :=
  ExecutionDAG.ofTasks
    ((planner callIdx ctx).map (fun t => { t with status := TaskStatus.pending }))

def planningPhase (planner : Nat → String → List PlanNode) (callIdx : Nat)
    (previousDag : Option ExecutionDAG) : Except String ExecutionDAG :=
  let ctx := planContext previousDag
  let dag := plannedDag planner callIdx ctx
  let v := dag.validate
  if v.valid then
    match dag.getExecutionLayers with
    | Except.ok _ => Except.ok dag
    | Except.error e => Except.error e
  else Except.error ("Invalid DAG: " ++ String.intercalate ", " v.errors)

/-- `shouldReplan(dag, executionResult)`: failed tasks, or incomplete with an
empty ready set. -/
def shouldReplan (d : ExecutionDAG) (complete : Bool) : Bool :=
  if d.hasFailed then true
  else if !complete && d.getReadyTasks.length == 0 then true
  else false

/-- The controller loop state: the executed cycle count, the current DAG (if
any), the progress log, and — as observational instrumentation — the planner
invocations made so far (call index, failure-context string). -/
structure CycleState where
  cycle : Nat
  dag : Option ExecutionDAG
  progress : List AgentProgress
  calls : List (Nat × String)
deriving DecidableEq

/-- Outcome of one iteration of the `while` body of `execute`: continue the
loop, break with a final result (success), break on the
`DAG not complete but no replanning triggered` warning, or propagate a thrown
error (keeping the state accumulated so far, as the mutable fields of the
source object do). -/
inductive StepOut
  | next (st : CycleState)
  | breakSuccess (st : CycleState) (res : String)
  | breakWarn (st : CycleState)
  | thrown (st : CycleState) (e : String)
deriving DecidableEq

/-- The planning guard of `execute`: `!dag || dag.isComplete() || dag.hasFailed()`. -/
def needsPlanning : Option ExecutionDAG → Bool
  | none => true
  | some d => d.isComplete || d.hasFailed

/-- The `finalResult = executionResult.finalResult || 'Goal completed successfully'`
defaulting (JS `||`: `undefined` and the empty string are falsy). -/
def finalResultOrDefault : Option Value → String
  | some s => if s == "" then "Goal completed successfully" else s
  | none => "Goal completed successfully"

/-- One iteration of the PlanAct `while` loop of `execute`: plan when the guard
requires it (logging `PLANNING`), run the execution phase, then break on
success, continue after logging `REPLANNING` when `shouldReplan` holds, or
break with the warning otherwise.  A `planningPhase` throw propagates. -/
def controllerStep (planner : Nat → String → List PlanNode) (run : TaskRunner)
    (st : CycleState) : StepOut :=
  let cycle := st.cycle + 1
  let planned : StepOut ⊕ (CycleState × ExecutionDAG) :=
    if needsPlanning st.dag then
      let idx := st.calls.length + 1
      let ctx := planContext st.dag
      let stRec := { st with cycle := cycle, calls := st.calls ++ [(idx, ctx)] }
      match planningPhase planner idx st.dag with
      | Except.error e => Sum.inl (StepOut.thrown stRec e)
      | Except.ok dag =>
        Sum.inr ({ stRec with progress := stRec.progress ++
          [⟨cycle, "PLANNING", "Created plan with " ++ toString dag.tasks.length ++ " tasks"⟩] },
          dag)
    else
      match st.dag with
      | some d => Sum.inr ({ st with cycle := cycle }, d)
      | none => Sum.inr ({ st with cycle := cycle }, ExecutionDAG.ofTasks [])
  match planned with
  | Sum.inl out => out
  | Sum.inr sd =>
    let ep := executionPhase run cycle sd.2
    let st2 : CycleState :=
      { sd.1 with dag := some ep.2.1, progress := sd.1.progress ++ ep.2.2 }
    if ep.1.complete then
      StepOut.breakSuccess st2 (finalResultOrDefault ep.1.finalResult)
    else if shouldReplan ep.2.1 ep.1.complete then
      StepOut.next { st2 with progress := st2.progress ++
        [⟨cycle, "REPLANNING", "Replanning triggered due to failures"⟩] }
    else
      StepOut.breakWarn st2

/-- The `while (executionCycle < maxExecutionCycles)` loop: the fuel is the
number of cycles still allowed.  `Except.ok none` is the shared exit of loop
exhaustion and of the warning break, both of which leave `finalResult` unset. -/
def controllerLoop (planner : Nat → String → List PlanNode) (run : TaskRunner) :
    Nat → CycleState → Except String (Option String) × CycleState
  | 0, st => (Except.ok none, st)
  | Nat.succ fuel, st =>
    match controllerStep planner run st with
    | StepOut.thrown st' e => (Except.error e, st')
    | StepOut.breakSuccess st' res => (Except.ok (some res), st')
    | StepOut.breakWarn st' => (Except.ok none, st')
    | StepOut.next st' => controllerLoop planner run fuel st'

/-- The controller result (`execute`'s return value). -/
structure ControllerResult where
  success : Bool
  result : String
  progress : List AgentProgress
deriving DecidableEq

/-- `maxExecutionCycles = options.maxExecutionCycles || 10` (JS `||`: `0` and
`undefined` fall back to `10`). -/
def mkMaxExecutionCycles : Option Nat → Nat
  | some n => if n == 0 then 10 else n
  | none => 10

/-- `execute(goal)`: run the PlanAct loop; an unset `finalResult` raises
`Goal not completed within N execution cycles` and every raised error is
caught and reported as a structured `{ success: false, result: "Error: ..." }`
outcome.  The terminal `CycleState` is returned alongside for observation. -/
def ControllerExecute (planner : Nat → String → List PlanNode) (run : TaskRunner)
    (maxCycles : Nat) : ControllerResult × CycleState :=
  let rs := controllerLoop planner run maxCycles ⟨0, none, [], []⟩
  match rs.1 with
  | Except.ok (some finalResult) =>
    ({ success := true, result := finalResult, progress := rs.2.progress }, rs.2)
  | Except.ok none =>
    ({ success := false,
       result := "Error: Goal not completed within " ++ toString maxCycles ++
         " execution cycles",
       progress := rs.2.progress }, rs.2)
  | Except.error e =>
    ({ success := false, result := "Error: " ++ e, progress := rs.2.progress }, rs.2)

/-! ### Specification-side notions used by the claims -/

/-- The dependency edge relation of a task map: `edgeTo g x y` holds when the
task stored under id `x` lists `y` in its `dependsOn`. -/
def edgeTo (g : List PlanNode) (x y : String) : Prop :=
  y ∈ depsOf g x

/-- A dependency cycle: a nonempty `dependsOn` path from some id back to itself. -/
def hasCycleProp (d : ExecutionDAG) : Prop :=
  ∃ a, Relation.TransGen (edgeTo d.tasks) a a

/-- Acyclicity witnessed by a topological rank: every dependency has a strictly
smaller rank than its dependent. -/
def RankedAcyclic (d : ExecutionDAG) : Prop :=
  ∃ rank : String → Nat, ∀ t ∈ d.tasks, ∀ dep ∈ t.dependsOn, rank dep < rank t.id

/-- One status-transition call on the graph, for reasoning about sequences of
`markExecuting` / `completeTask` / `failTask` calls. -/
inductive DagOp
  | mark (id : String)
  | complete (id : String) (r : Value)
  | fail (id : String) (e : String)
deriving DecidableEq

/-- The task id a transition call targets. -/
def DagOp.target : DagOp → String
  | DagOp.mark id => id
  | DagOp.complete id _ => id
  | DagOp.fail id _ => id

/-- Apply one transition call. -/
def applyOp (d : ExecutionDAG) : DagOp → ExecutionDAG
  | DagOp.mark id => d.markExecuting id
  | DagOp.complete id r => d.completeTask id r
  | DagOp.fail id e => d.failTask id e

/-- Apply a sequence of transition calls, oldest first. -/
def applyOps (d : ExecutionDAG) (ops : List DagOp) : ExecutionDAG :=
  ops.foldl applyOp d

/-- Is `needle` a prefix of `hay`? (helper for substring occurrence). -/
def listLeads : List Char → List Char → Bool
  | [], _ => true
  | _ :: _, [] => false
  | a :: as, b :: bs => a == b && listLeads as bs

/-- Does `needle` occur contiguously inside `hay`? -/
def listHasSub (needle : List Char) : List Char → Bool
  | [] => needle.isEmpty
  | b :: bs => listLeads needle (b :: bs) || listHasSub needle bs

/-- Substring occurrence on strings. -/
def strOccurs (needle hay : String) : Bool :=
  listHasSub needle.toList hay.toList


/-- Dependency relation used by the DFS invariants: `depRel g y x` holds when
`y` is listed among the dependencies of the task stored under id `x`. -/
def depRel (g : List PlanNode) (y x : String) : Prop :=
  y ∈ depsOf g x

/-- Colors range over white/grey/black. -/
def ColorsRange (c : Colors) : Prop :=
  ∀ x, c x ≤ 2

/-- Soundness invariant of the colors map: every black node is in the
accessible (well-founded) part of the dependency relation. -/
def ColorsOk (g : List PlanNode) (c : Colors) : Prop :=
  ∀ x, c x = 2 → Acc (depRel g) x

/-- Induction statement for a `dfs` visit function: called on a white node in
a sound color state, a `false` return blackens the node, preserves blacks,
creates no greys, and keeps the state sound. -/
def VisitSpec (g : List PlanNode) (visit : Colors → String → Bool × Colors) : Prop :=
  ∀ c id c', c id = 0 → ColorsRange c → ColorsOk g c →
    visit c id = (false, c') →
    ColorsOk g c' ∧ c' id = 2 ∧ (∀ x, c x = 2 → c' x = 2) ∧
    (∀ x, c' x = 1 → c x = 1) ∧ ColorsRange c'

/-- Induction statement for `dfsDeps`: on a `false` return every listed
dependency ends black, blacks are preserved, no greys are created, and the
state stays sound. -/
def DepsSpec (g : List PlanNode) (visit : Colors → String → Bool × Colors) : Prop :=
  ∀ c ds c', ColorsRange c → ColorsOk g c →
    dfsDeps g visit c ds = (false, c') →
    ColorsOk g c' ∧ (∀ x ∈ ds, c' x = 2) ∧ (∀ x, c x = 2 → c' x = 2) ∧
    (∀ x, c' x = 1 → c x = 1) ∧ ColorsRange c'


/-! ### Invariants of Kahn's algorithm (`getExecutionLayers`) -/

/-- The ids of the tasks of a map, in insertion order. -/
def gIds (g : List PlanNode) : List String :=
  g.map (fun t => t.id)

/-- The ids of all tasks emitted in the accumulated layers, in emission order. -/
def flatIds (acc : List (List PlanNode)) : List String :=
  (acc.flatten).map (fun t => t.id)

/-- Topological batching property of a layer list: every dependency of a task
in layer `k` carries the id of a task placed in some strictly earlier layer. -/
def LayersOk (acc : List (List PlanNode)) : Prop :=
  ∀ (k : Nat) (L : List PlanNode), acc[k]? = some L →
    ∀ t ∈ L, ∀ dep ∈ t.dependsOn,
      ∃ j, j < k ∧ ∃ L', acc[j]? = some L' ∧ ∃ u ∈ L', PlanNode.id u = dep

/-- Invariant of the outer Kahn loop, at loop entry. -/
structure KahnInv (g : List PlanNode) (degs : Degrees) (queue : List String)
    (acc : List (List PlanNode)) : Prop where
  keys : degs.map Prod.fst = gIds g
  nodup : (flatIds acc ++ queue).Nodup
  subset : ∀ x ∈ flatIds acc ++ queue, x ∈ gIds g
  deg : ∀ t ∈ g, degGet degs t.id =
    (t.dependsOn.length : Int) -
      ((t.dependsOn.filter (fun dep => decide (dep ∈ flatIds acc))).length : Int)
  queueDeps : ∀ x ∈ queue, ∀ t ∈ g, t.id = x → ∀ dep ∈ t.dependsOn, dep ∈ flatIds acc
  trigger : ∀ t ∈ g, (∀ dep ∈ t.dependsOn, dep ∈ flatIds acc) →
    t.id ∈ flatIds acc ∨ t.id ∈ queue
  procDeps : ∀ t ∈ g, t.id ∈ flatIds acc → ∀ dep ∈ t.dependsOn, dep ∈ flatIds acc
  layersOk : LayersOk acc
  accMem : ∀ L ∈ acc, ∀ t ∈ L, t ∈ g

/-- Invariant of the inner walk over one layer's ids: `base` is the id set
processed before this layer began, `layer` the part of the current layer
already emitted, `rem` the ids of the layer still to walk, `newQ` the queue
being built for the next layer. -/
structure KahnInnerInv (g : List PlanNode) (base : List String) (degs : Degrees)
    (rem : List String) (layer : List PlanNode) (newQ : List String) : Prop where
  keys : degs.map Prod.fst = gIds g
  nodup : ((base ++ layer.map (fun t => t.id)) ++ rem ++ newQ).Nodup
  subset : ∀ x ∈ (base ++ layer.map (fun t => t.id)) ++ rem ++ newQ, x ∈ gIds g
  deg : ∀ t ∈ g, degGet degs t.id =
    (t.dependsOn.length : Int) -
      ((t.dependsOn.filter
        (fun dep => decide (dep ∈ base ++ layer.map (fun t => t.id)))).length : Int)
  remDeps : ∀ x ∈ rem, ∀ t ∈ g, t.id = x → ∀ dep ∈ t.dependsOn, dep ∈ base
  newQDeps : ∀ x ∈ newQ, ∀ t ∈ g, t.id = x → ∀ dep ∈ t.dependsOn,
    dep ∈ base ++ layer.map (fun t => t.id)
  trigger : ∀ t ∈ g, (∀ dep ∈ t.dependsOn, dep ∈ base ++ layer.map (fun t => t.id)) →
    t.id ∈ base ++ layer.map (fun t => t.id) ∨ t.id ∈ rem ∨ t.id ∈ newQ
  layerMem : ∀ t ∈ layer, t ∈ g ∧ ∀ dep ∈ t.dependsOn, dep ∈ base
  baseDeps : ∀ t ∈ g, t.id ∈ base → ∀ dep ∈ t.dependsOn, dep ∈ base


/-! ### Concrete tasks used by the claim scenarios -/

/-- The always-failing independent task of the Scheduler-isolation scenario. -/
def taskA2 : PlanNode := ⟨"A", "always fails", [], TaskStatus.pending, none, none⟩

/-- The always-succeeding independent task of the Scheduler-isolation scenario. -/
def taskB2 : PlanNode := ⟨"B", "always succeeds", [], TaskStatus.pending, none, none⟩

/-- Layering example task `A` (no dependencies). -/
def nodeA9 : PlanNode := ⟨"A", "a", [], TaskStatus.pending, none, none⟩

/-- Layering example task `B` (no dependencies). -/
def nodeB9 : PlanNode := ⟨"B", "b", [], TaskStatus.pending, none, none⟩

/-- Layering example task `C` (depends on `A` and `B`). -/
def nodeC9 : PlanNode := ⟨"C", "c", ["A", "B"], TaskStatus.pending, none, none⟩



/-- Budget-exhaustion / two-cycle scenarios: the always-failing independent task. -/
def fTask8 : PlanNode := ⟨"f1", "act f", [], TaskStatus.pending, none, none⟩

/-- Two-cycle scenario: the always-succeeding task of the second plan. -/
def gTask8 : PlanNode := ⟨"g1", "act g", [], TaskStatus.pending, none, none⟩

/-- Two-cycle planner stub: the failing plan on call 1, the succeeding plan after. -/
def planner8 : Nat → String → List PlanNode :=
  fun k _ => if k == 1 then [fTask8] else [gTask8]

/-- Two-cycle runner stub: `f1` always fails, everything else succeeds. -/
def run8 : TaskRunner :=
  fun t _ => if t.id == "f1" then Except.error "boom" else Except.ok "ok"

/-- Budget-exhaustion planner stub: always the single always-failing task. -/
def planner7 : Nat → String → List PlanNode := fun _ _ => [fTask8]

/-- Runner stub failing every task. -/
def run7 : TaskRunner := fun _ _ => Except.error "boom"

/-- A task depending on a nonexistent id, for the early-throw counterexample. -/
def hTask7 : PlanNode := ⟨"h1", "act h", ["ghost"], TaskStatus.pending, none, none⟩

/-- Planner stub whose every plan contains the always-failing task together
with the ghost-dependency task. -/
def planner7c : Nat → String → List PlanNode := fun _ _ => [fTask8, hTask7]

/-- A deadlocked graph: one pending task whose dependency does not exist, so it
is never ready, nothing fails, and the graph never completes. -/
def deadDag : ExecutionDAG :=
  ExecutionDAG.ofTasks [⟨"t1", "wait", ["ghost"], TaskStatus.pending, none, none⟩]

/-- Planner stub for the deadlock scenario (never consulted by the loop). -/
def planner5 : Nat → String → List PlanNode := fun _ _ => []

/-- Runner stub for the deadlock scenario (never consulted: nothing is ready). -/
def run5 : TaskRunner := fun _ _ => Except.ok ""


/-- Decidable equality of layering results, for concrete evaluation. -/
instance : DecidableEq (Except String (List (List PlanNode))) :=
  fun x y =>
    match x, y with
    | Except.ok a, Except.ok b =>
      if h : a = b then Decidable.isTrue (by rw [h])
      else Decidable.isFalse (by intro hc; cases hc; exact h rfl)
    | Except.error a, Except.error b =>
      if h : a = b then Decidable.isTrue (by rw [h])
      else Decidable.isFalse (by intro hc; cases hc; exact h rfl)
    | Except.ok _, Except.error _ => Decidable.isFalse (by intro hc; cases hc)
    | Except.error _, Except.ok _ => Decidable.isFalse (by intro hc; cases hc)


/-- Stub-planner condition for the budget-exhaustion scenario: every planner
call yields a plan that validates, admits execution layers, contains a task
without dependencies, and all of whose tasks fail under the runner. -/
def AlwaysFailingPlans (planner : Nat → String → List PlanNode) (run : TaskRunner) : Prop :=
  ∀ k ctx,
    (plannedDag planner k ctx).validate.valid = true ∧
    (∃ ls, (plannedDag planner k ctx).getExecutionLayers = Except.ok ls) ∧
    (∃ t ∈ (plannedDag planner k ctx).tasks, t.dependsOn = []) ∧
    (∀ t ∈ (plannedDag planner k ctx).tasks, ∀ dr, ∃ e, run t dr = Except.error e)

/-! ### Basic lemmas -/

theorem map_eq_self_of {α : Type} (l : List α) (f : α → α) (h : ∀ a ∈ l, f a = a) :
    l.map f = l := by
  induction l with
  | nil => rfl
  | cons a l ih =>
    simp only [List.map_cons, List.cons.injEq]
    exact ⟨h a (by simp), ih (fun x hx => h x (by simp [hx]))⟩

theorem mem_foldl_append {α β : Type} (f : α → List β) (l : List α) (init : List β) (x : β) :
    x ∈ l.foldl (fun acc a => acc ++ f a) init ↔ x ∈ init ∨ ∃ a ∈ l, x ∈ f a := by
  induction l generalizing init with
  | nil => simp
  | cons a l ih =>
    simp only [List.foldl_cons, ih, List.mem_append, List.mem_cons]
    constructor
    · rintro ((h | h) | ⟨b, hb, hx⟩)
      · exact Or.inl h
      · exact Or.inr ⟨a, Or.inl rfl, h⟩
      · exact Or.inr ⟨b, Or.inr hb, hx⟩
    · rintro (h | ⟨b, (rfl | hb), hx⟩)
      · exact Or.inl (Or.inl h)
      · exact Or.inl (Or.inr hx)
      · exact Or.inr ⟨b, hb, hx⟩

theorem depCompleted_iff (d : ExecutionDAG) (depId : String) :
    (match d.getTask depId with
      | some dep => dep.status == TaskStatus.completed
      | none => false) = true ↔
      ∃ dep, d.getTask depId = some dep ∧ dep.status = TaskStatus.completed := by
  cases h : d.getTask depId <;> simp [h]

theorem mem_updateTask_of_ne (d : ExecutionDAG) (id : String) (f : PlanNode → PlanNode)
    (t : PlanNode) (ht : t ∈ d.tasks) (hne : t.id ≠ id) :
    t ∈ (d.updateTask id f).tasks := by
  have : t = (fun u => if u.id == id then f u else u) t := by simp [hne]
  rw [ExecutionDAG.updateTask]
  exact this ▸ List.mem_map_of_mem _ ht

/-! ### Claim C1 -/

/-- Claim C1: `getReadyTasks()` returns exactly the tasks whose status is
`pending` and all of whose `dependsOn` ids refer to tasks with status
`completed`; in particular a pending task with a failed dependency is never
returned.  (`getReadyTasks` is a pure function of the graph value, so repeated
recomputation returns the same list until the graph instance is replaced.) -/
theorem C1_ready_tasks (d : ExecutionDAG) :
    (∀ t, t ∈ d.getReadyTasks ↔
      t ∈ d.tasks ∧ t.status = TaskStatus.pending ∧
        ∀ depId ∈ t.dependsOn,
          ∃ dep, d.getTask depId = some dep ∧ dep.status = TaskStatus.completed) ∧
    (∀ t, t.status = TaskStatus.pending →
      (∃ depId ∈ t.dependsOn, ∃ dep, d.getTask depId = some dep ∧
        dep.status = TaskStatus.failed) →
      t ∉ d.getReadyTasks) := by
  have hiff : ∀ t, t ∈ d.getReadyTasks ↔
      t ∈ d.tasks ∧ t.status = TaskStatus.pending ∧
        ∀ depId ∈ t.dependsOn,
          ∃ dep, d.getTask depId = some dep ∧ dep.status = TaskStatus.completed := by
    intro t
    simp only [ExecutionDAG.getReadyTasks, List.mem_filter, Bool.and_eq_true, beq_iff_eq,
      List.all_eq_true, and_assoc]
    constructor
    · rintro ⟨hmem, hstat, hdeps⟩
      exact ⟨hmem, hstat, fun depId hd => (depCompleted_iff d depId).mp (hdeps depId hd)⟩
    · rintro ⟨hmem, hstat, hdeps⟩
      exact ⟨hmem, hstat, fun depId hd => (depCompleted_iff d depId).mpr (hdeps depId hd)⟩
  refine ⟨hiff, ?_⟩
  rintro t _ ⟨depId, hdep, dep, hget, hfail⟩ hmem
  rcases ((hiff t).mp hmem).2.2 depId hdep with ⟨dep', hget', hcomp⟩
  rw [hget] at hget'
  cases hget'
  rw [hfail] at hcomp
  cases hcomp

/-- Witness for C1: in the graph `A: failed`, `B: pending (depends on A)`,
`C: pending (no deps)`, task `C` is ready and task `B` is not. -/
theorem C1_ready_tasks_witness :
    (⟨"C", "c", [], TaskStatus.pending, none, none⟩ : PlanNode) ∈
      (ExecutionDAG.ofTasks
        [⟨"A", "a", [], TaskStatus.failed, none, some "boom"⟩,
         ⟨"B", "b", ["A"], TaskStatus.pending, none, none⟩,
         ⟨"C", "c", [], TaskStatus.pending, none, none⟩]).getReadyTasks ∧
    (⟨"B", "b", ["A"], TaskStatus.pending, none, none⟩ : PlanNode) ∉
      (ExecutionDAG.ofTasks
        [⟨"A", "a", [], TaskStatus.failed, none, some "boom"⟩,
         ⟨"B", "b", ["A"], TaskStatus.pending, none, none⟩,
         ⟨"C", "c", [], TaskStatus.pending, none, none⟩]).getReadyTasks := by
  constructor
  · exact (C1_ready_tasks _).1 _ |>.mpr (by decide)
  · exact (C1_ready_tasks _).2 _ (by decide)
      ⟨"A", by decide, ⟨"A", "a", [], TaskStatus.failed, none, some "boom"⟩, by decide, rfl⟩

/-! ### Claim C4 -/

/-- Claim C4: a task depending on a nonexistent id makes `validate()` return
`valid = false`, and for each such missing reference the errors list contains
the error message naming the offending task and the missing id.  No
acyclicity assumption is made, so the conclusion holds whether or not the
graph also contains cycles (the cycle pass can only append one further
message). -/
theorem C4_missing_dependency_errors (d : ExecutionDAG) (t : PlanNode) (depId : String)
    (ht : t ∈ d.tasks) (hdep : depId ∈ t.dependsOn)
    (hmiss : ∀ u ∈ d.tasks, u.id ≠ depId) :
    d.validate.valid = false ∧ missingDepMsg t.id depId ∈ d.validate.errors := by
  have hmem : missingDepMsg t.id depId ∈ missingDepErrors d := by
    rw [missingDepErrors, mem_foldl_append]
    refine Or.inr ⟨t, ht, List.mem_map_of_mem _ ?_⟩
    rw [List.mem_filter]
    refine ⟨hdep, ?_⟩
    simp only [Bool.not_eq_true', List.any_eq_false, beq_iff_eq]
    exact fun u hu => hmiss u hu
  have hmem' : missingDepMsg t.id depId ∈ d.validate.errors := by
    rw [ExecutionDAG.validate]
    by_cases hc : d.hasCycles <;> simp [hc, hmem]
  refine ⟨?_, hmem'⟩
  rw [ExecutionDAG.validate]
  by_cases hc : d.hasCycles <;>
    simp [hc, List.isEmpty_eq_false_iff_exists_mem.mpr ⟨_, hmem⟩,
      List.isEmpty_eq_false_iff_exists_mem.mpr ⟨_, List.mem_append_left _ hmem⟩]

/-- Witness for C4: task `X` depends on the absent id `missing`. -/
theorem C4_missing_dependency_errors_witness :
    (ExecutionDAG.ofTasks
      [⟨"X", "x", ["missing"], TaskStatus.pending, none, none⟩]).validate.valid = false ∧
    missingDepMsg "X" "missing" ∈
      (ExecutionDAG.ofTasks
        [⟨"X", "x", ["missing"], TaskStatus.pending, none, none⟩]).validate.errors :=
  C4_missing_dependency_errors _ ⟨"X", "x", ["missing"], TaskStatus.pending, none, none⟩
    "missing" (by decide) (by decide) (by decide)

/-! ### Claim C10 -/

/-- Claim C10: `markExecuting`, `completeTask` and `failTask` with an id not in
the graph are silent no-ops: the graph (every task's status, result and error)
is unchanged and no exception is raised (`updateTask` guards on presence). -/
theorem C10_unknown_id_noop (d : ExecutionDAG) (id : String) (r : Value) (e : String)
    (h : ∀ t ∈ d.tasks, t.id ≠ id) :
    d.markExecuting id = d ∧ d.completeTask id r = d ∧ d.failTask id e = d := by
  have hupd : ∀ f : PlanNode → PlanNode, d.updateTask id f = d := by
    intro f
    rw [ExecutionDAG.updateTask]
    have : d.tasks.map (fun t => if t.id == id then f t else t) = d.tasks :=
      map_eq_self_of _ _ (fun t hts => by simp [h t hts])
    rw [this]
  exact ⟨hupd _, hupd _, hupd _⟩

/-- Witness for C10: updates aimed at the absent id `zz` leave a one-task graph
unchanged. -/
theorem C10_unknown_id_noop_witness :
    (ExecutionDAG.ofTasks [⟨"A", "a", [], TaskStatus.pending, none, none⟩]).markExecuting
        "zz" =
      ExecutionDAG.ofTasks [⟨"A", "a", [], TaskStatus.pending, none, none⟩] ∧
    (ExecutionDAG.ofTasks [⟨"A", "a", [], TaskStatus.pending, none, none⟩]).completeTask
        "zz" "r" =
      ExecutionDAG.ofTasks [⟨"A", "a", [], TaskStatus.pending, none, none⟩] ∧
    (ExecutionDAG.ofTasks [⟨"A", "a", [], TaskStatus.pending, none, none⟩]).failTask
        "zz" "e" =
      ExecutionDAG.ofTasks [⟨"A", "a", [], TaskStatus.pending, none, none⟩] :=
  C10_unknown_id_noop _ "zz" "r" "e" (by decide)

/-! ### Claim C6 -/

/-- Counterexample to claim C6: `completed` is not enforced as terminal.
`updateTask` overwrites unconditionally, so a subsequent `failTask` call on an
already-completed task changes its status from `completed` to `failed` (and,
symmetrically, `hasFailed()` can be reverted by a later `completeTask`). -/
theorem C6_counterexample :
    (ExecutionDAG.ofTasks [⟨"A", "a", [], TaskStatus.completed, some "r", none⟩]).getTask
        "A" = some ⟨"A", "a", [], TaskStatus.completed, some "r", none⟩ ∧
    ((ExecutionDAG.ofTasks [⟨"A", "a", [], TaskStatus.completed, some "r", none⟩]).failTask
        "A" "late").getTask "A" =
      some ⟨"A", "a", [], TaskStatus.failed, some "r", some "late"⟩ := by
  decide

/-- Claim C6 (amended): the transition operations overwrite a task's status
unconditionally, so `completed`/`failed` are terminal only under the caller's
contract; what the code does guarantee is a frame property: any sequence of
`markExecuting`/`completeTask`/`failTask` calls that never targets a task's id
leaves that task unchanged, and hence once a task is `failed`, `hasFailed()`
stays `true` and `isComplete()` stays `false` under every subsequent call
sequence not aimed at that task. -/
theorem C6_amended_frame (d : ExecutionDAG) (ops : List DagOp) (t : PlanNode)
    (ht : t ∈ d.tasks) (hops : ∀ op ∈ ops, op.target ≠ t.id) :
    t ∈ (applyOps d ops).tasks ∧
    (t.status = TaskStatus.failed →
      (applyOps d ops).hasFailed = true ∧ (applyOps d ops).isComplete = false) := by
  have hmem : t ∈ (applyOps d ops).tasks := by
    induction ops generalizing d with
    | nil => exact ht
    | cons op ops ih =>
      rw [applyOps, List.foldl_cons]
      refine ih (applyOp d op) ?_ (fun o ho => hops o (by simp [ho]))
      have hne : t.id ≠ op.target := fun h => hops op (by simp) h.symm
      cases op with
      | mark id => exact mem_updateTask_of_ne d id _ t ht hne
      | complete id r => exact mem_updateTask_of_ne d id _ t ht hne
      | fail id e => exact mem_updateTask_of_ne d id _ t ht hne
  refine ⟨hmem, fun hfail => ⟨?_, ?_⟩⟩
  · rw [ExecutionDAG.hasFailed, List.any_eq_true]
    exact ⟨t, hmem, by simp [hfail]⟩
  · rw [ExecutionDAG.isComplete]
    by_contra hall
    rw [Bool.not_eq_false, List.all_eq_true] at hall
    have := hall t hmem
    simp [hfail] at this

/-- Witness for the amended C6: with `A` failed, a later `completeTask`/`mark`
sequence aimed at `B` keeps `hasFailed()` true and `isComplete()` false. -/
theorem C6_amended_frame_witness :
    (⟨"A", "a", [], TaskStatus.failed, none, some "boom"⟩ : PlanNode) ∈
      (applyOps
        (ExecutionDAG.ofTasks
          [⟨"A", "a", [], TaskStatus.failed, none, some "boom"⟩,
           ⟨"B", "b", [], TaskStatus.pending, none, none⟩])
        [DagOp.mark "B", DagOp.complete "B" "r"]).tasks ∧
    (applyOps
        (ExecutionDAG.ofTasks
          [⟨"A", "a", [], TaskStatus.failed, none, some "boom"⟩,
           ⟨"B", "b", [], TaskStatus.pending, none, none⟩])
        [DagOp.mark "B", DagOp.complete "B" "r"]).hasFailed = true ∧
    (applyOps
        (ExecutionDAG.ofTasks
          [⟨"A", "a", [], TaskStatus.failed, none, some "boom"⟩,
           ⟨"B", "b", [], TaskStatus.pending, none, none⟩])
        [DagOp.mark "B", DagOp.complete "B" "r"]).isComplete = false := by
  have h := C6_amended_frame
    (ExecutionDAG.ofTasks
      [⟨"A", "a", [], TaskStatus.failed, none, some "boom"⟩,
       ⟨"B", "b", [], TaskStatus.pending, none, none⟩])
    [DagOp.mark "B", DagOp.complete "B" "r"]
    ⟨"A", "a", [], TaskStatus.failed, none, some "boom"⟩
    (by decide) (by decide)
  exact ⟨h.1, (h.2 rfl).1, (h.2 rfl).2⟩

/-! ### Claim C2 -/

theorem execIter_stop (run : TaskRunner) (cycle fuel : Nat) (d : ExecutionDAG)
    (prog : List AgentProgress) (h : d.getReadyTasks.isEmpty = true) :
    execIter run cycle (fuel + 1) d prog = (d, prog) := by
  rw [execIter]
  by_cases hc : d.isComplete <;> simp [hc, h]

theorem settleA_step (run : TaskRunner) (eA : String)
    (h1 : run taskA2 [] = Except.error eA) :
    settleTask run
      (ExecutionDAG.mk
        [⟨"A", "always fails", [], TaskStatus.executing, none, none⟩,
         ⟨"B", "always succeeds", [], TaskStatus.executing, none, none⟩]) taskA2 =
      ExecutionDAG.mk
        [⟨"A", "always fails", [], TaskStatus.failed, none, some eA⟩,
         ⟨"B", "always succeeds", [], TaskStatus.executing, none, none⟩] := by
  unfold settleTask
  have hdep : ExecutionDAG.getDependencyResults
      (ExecutionDAG.mk
        [⟨"A", "always fails", [], TaskStatus.executing, none, none⟩,
         ⟨"B", "always succeeds", [], TaskStatus.executing, none, none⟩]) taskA2 = [] := rfl
  rw [hdep, h1]
  simp [ExecutionDAG.failTask, ExecutionDAG.updateTask, taskA2]

theorem settleB_step (run : TaskRunner) (eA rB : String)
    (h2 : run taskB2 [] = Except.ok rB) :
    settleTask run
      (ExecutionDAG.mk
        [⟨"A", "always fails", [], TaskStatus.failed, none, some eA⟩,
         ⟨"B", "always succeeds", [], TaskStatus.executing, none, none⟩]) taskB2 =
      ExecutionDAG.mk
        [⟨"A", "always fails", [], TaskStatus.failed, none, some eA⟩,
         ⟨"B", "always succeeds", [], TaskStatus.completed, some rB, none⟩] := by
  unfold settleTask
  have hdep : ExecutionDAG.getDependencyResults
      (ExecutionDAG.mk
        [⟨"A", "always fails", [], TaskStatus.failed, none, some eA⟩,
         ⟨"B", "always succeeds", [], TaskStatus.executing, none, none⟩]) taskB2 = [] := by
    simp [ExecutionDAG.getDependencyResults, taskB2]
  rw [hdep, h2]
  simp [ExecutionDAG.completeTask, ExecutionDAG.updateTask, taskB2]

theorem scheduler_isolation_key (run : TaskRunner) (eA rB : String)
    (hA : ∀ t dr, t.id = "A" → run t dr = Except.error eA)
    (hB : ∀ t dr, t.id = "B" → run t dr = Except.ok rB) :
    executionPhase run 1 (ExecutionDAG.ofTasks [taskA2, taskB2]) =
      ({ complete := false, finalResult := none },
        ExecutionDAG.mk
          [⟨"A", "always fails", [], TaskStatus.failed, none, some eA⟩,
           ⟨"B", "always succeeds", [], TaskStatus.completed, some rB, none⟩],
        [⟨1, "EXECUTION", "Completed 1/2 tasks, 1 failed"⟩]) := by
  have h1 : run taskA2 [] = Except.error eA := hA _ _ rfl
  have h2 : run taskB2 [] = Except.ok rB := hB _ _ rfl
  have e1 : (ExecutionDAG.ofTasks [taskA2, taskB2]).isComplete = false := by decide
  have e2 : (ExecutionDAG.ofTasks [taskA2, taskB2]).getReadyTasks = [taskA2, taskB2] := by
    decide
  have e3 : [taskA2, taskB2].foldl (fun acc t => acc.markExecuting t.id)
      (ExecutionDAG.ofTasks [taskA2, taskB2]) =
      ExecutionDAG.mk
        [⟨"A", "always fails", [], TaskStatus.executing, none, none⟩,
         ⟨"B", "always succeeds", [], TaskStatus.executing, none, none⟩] := by decide
  have e4 := settleA_step run eA h1
  have e5 := settleB_step run eA rB h2
  have e6 : execProgressMsg
      (ExecutionDAG.mk
        [⟨"A", "always fails", [], TaskStatus.failed, none, some eA⟩,
         ⟨"B", "always succeeds", [], TaskStatus.completed, some rB, none⟩]) =
      "Completed 1/2 tasks, 1 failed" := by
    simp [execProgressMsg, ExecutionDAG.getStats]
    rfl
  have e7 : (ExecutionDAG.mk
      [⟨"A", "always fails", [], TaskStatus.failed, none, some eA⟩,
       ⟨"B", "always succeeds", [], TaskStatus.completed, some rB,
        none⟩]).getReadyTasks.isEmpty = true := by
    simp [ExecutionDAG.getReadyTasks]
  have e8 : (ExecutionDAG.mk
      [⟨"A", "always fails", [], TaskStatus.failed, none, some eA⟩,
       ⟨"B", "always succeeds", [], TaskStatus.completed, some rB,
        none⟩]).isComplete = false := by
    simp [ExecutionDAG.isComplete]
  have hiter : execIter run 1 50 (ExecutionDAG.ofTasks [taskA2, taskB2]) [] =
      (ExecutionDAG.mk
        [⟨"A", "always fails", [], TaskStatus.failed, none, some eA⟩,
         ⟨"B", "always succeeds", [], TaskStatus.completed, some rB, none⟩],
       [⟨1, "EXECUTION", "Completed 1/2 tasks, 1 failed"⟩]) := by
    rw [show (50 : Nat) = 49 + 1 by norm_num, execIter]
    simp only [e1, Bool.false_eq_true, if_false, e2]
    simp only [List.isEmpty_cons, List.foldl_cons, List.foldl_nil, e3, e4, e5, e6,
      Bool.false_eq_true, if_false]
    rw [show (49 : Nat) = 48 + 1 by norm_num]
    exact execIter_stop run 1 48 _ _ e7
  rw [executionPhase, hiter]
  simp only [e8, Bool.false_eq_true, if_false]

/-- Claim C2: with two independent pending tasks, `A` always failing and `B`
always succeeding, one Scheduler run (`executionPhase`) terminates with `B`
completed (result recorded), `A` failed (error message recorded), reports
`complete = false` with the blocked-by-failure condition (`hasFailed` on the
terminal graph) true, and `A`'s failure neither prevents `B` from completing
nor escapes the Scheduler (the settlement of each dispatch records the failure
in the graph instead of rethrowing, and the embedded phase is a total
function). -/
theorem C2_scheduler_isolation (run : TaskRunner) (eA rB : String)
    (hA : ∀ t dr, t.id = "A" → run t dr = Except.error eA)
    (hB : ∀ t dr, t.id = "B" → run t dr = Except.ok rB) :
    (executionPhase run 1 (ExecutionDAG.ofTasks [taskA2, taskB2])).1.complete = false ∧
    (executionPhase run 1 (ExecutionDAG.ofTasks [taskA2, taskB2])).2.1.getTask "B" =
      some ⟨"B", "always succeeds", [], TaskStatus.completed, some rB, none⟩ ∧
    (executionPhase run 1 (ExecutionDAG.ofTasks [taskA2, taskB2])).2.1.getTask "A" =
      some ⟨"A", "always fails", [], TaskStatus.failed, none, some eA⟩ ∧
    blockedByFailure (executionPhase run 1 (ExecutionDAG.ofTasks [taskA2, taskB2])).1
      (executionPhase run 1 (ExecutionDAG.ofTasks [taskA2, taskB2])).2.1 = true := by
  have key := scheduler_isolation_key run eA rB hA hB
  rw [key]
  refine ⟨rfl, ?_, rfl, rfl⟩
  simp [ExecutionDAG.getTask]

/-- Witness for C2 at a concrete runner failing `A` with `boom` and completing
`B` with `ok`. -/
theorem C2_scheduler_isolation_witness :
    (executionPhase (fun t _ => if t.id == "A" then Except.error "boom" else Except.ok "ok")
      1 (ExecutionDAG.ofTasks [taskA2, taskB2])).1.complete = false ∧
    (executionPhase (fun t _ => if t.id == "A" then Except.error "boom" else Except.ok "ok")
      1 (ExecutionDAG.ofTasks [taskA2, taskB2])).2.1.getTask "B" =
      some ⟨"B", "always succeeds", [], TaskStatus.completed, some "ok", none⟩ ∧
    (executionPhase (fun t _ => if t.id == "A" then Except.error "boom" else Except.ok "ok")
      1 (ExecutionDAG.ofTasks [taskA2, taskB2])).2.1.getTask "A" =
      some ⟨"A", "always fails", [], TaskStatus.failed, none, some "boom"⟩ ∧
    blockedByFailure
      (executionPhase (fun t _ => if t.id == "A" then Except.error "boom" else Except.ok "ok")
        1 (ExecutionDAG.ofTasks [taskA2, taskB2])).1
      (executionPhase (fun t _ => if t.id == "A" then Except.error "boom" else Except.ok "ok")
        1 (ExecutionDAG.ofTasks [taskA2, taskB2])).2.1 = true :=
  C2_scheduler_isolation _ "boom" "ok"
    (fun t dr h => by simp [h]) (fun t dr h => by simp [h, taskB2])

/-! ### Claim C3: completeness of the cycle detection -/

theorem setColor_same (c : Colors) (k : String) (v : Nat) : setColor c k v k = v := by
  simp [setColor]

theorem setColor_other (c : Colors) (k : String) (v : Nat) (x : String) (h : x ≠ k) :
    setColor c k v x = c x := by
  simp [setColor, h]

theorem depsSpec_of_visitSpec (g : List PlanNode)
    (visit : Colors → String → Bool × Colors)
    (hP : VisitSpec g visit) : DepsSpec g visit := by
  intro c ds
  induction ds generalizing c with
  | nil =>
    intro c' hr hok heq
    rw [dfsDeps] at heq
    cases heq
    exact ⟨hok, by simp, fun x h => h, fun x h => h, hr⟩
  | cons depId rest ih =>
    intro c' hr hok heq
    rw [dfsDeps] at heq
    by_cases h1 : c depId == 1
    · simp [h1] at heq
    · by_cases h0 : c depId == 0
      · simp [h1, h0] at heq
        rcases hv : visit c depId with ⟨b, c2⟩
        rw [hv] at heq
        cases b
        · simp at heq
          have hpre := hP c depId c2 (by simpa using h0) hr hok hv
          rcases hpre with ⟨hok2, hblack2, hpres2, hgrey2, hr2⟩
          have hrest := ih c2 c' hr2 hok2 heq
          rcases hrest with ⟨hok', hds', hpres', hgrey', hr'⟩
          refine ⟨hok', ?_, fun x hx => hpres' x (hpres2 x hx),
            fun x hx => hgrey2 x (hgrey' x hx), hr'⟩
          intro x hx
          rcases List.mem_cons.mp hx with rfl | hx
          · exact hpres' x hblack2
          · exact hds' x hx
        · simp at heq
      · simp [h1, h0] at heq
        have h2 : c depId = 2 := by
          have hle := hr depId
          have hne1 : c depId ≠ 1 := by simpa using h1
          have hne0 : c depId ≠ 0 := by simpa using h0
          omega
        have hrest := ih c c' hr hok heq
        rcases hrest with ⟨hok', hds', hpres', hgrey', hr'⟩
        refine ⟨hok', ?_, hpres', hgrey', hr'⟩
        intro x hx
        rcases List.mem_cons.mp hx with rfl | hx
        · exact hpres' x h2
        · exact hds' x hx

theorem dfsVisitInv_zero (g : List PlanNode) : VisitSpec g (dfsVisit g 0) := by
  intro c id c' _ _ _ heq
  rw [dfsVisit] at heq
  cases heq

theorem dfsVisitInv_succ (g : List PlanNode) (fuel : Nat)
    (hQ : DepsSpec g (dfsVisit g fuel)) : VisitSpec g (dfsVisit g (fuel + 1)) := by
  intro c id c' hid hr hok heq
  rw [dfsVisit] at heq
  rcases hd : dfsDeps g (dfsVisit g fuel) (setColor c id 1) (depsOf g id) with ⟨b, c2⟩
  rw [hd] at heq
  cases b
  · simp at heq
    have hr1 : ColorsRange (setColor c id 1) := by
      intro x
      by_cases hx : x = id
      · subst hx
        rw [setColor_same]
        omega
      · rw [setColor_other c id 1 x hx]
        exact hr x
    have hok1 : ColorsOk g (setColor c id 1) := by
      intro x hx
      by_cases hxid : x = id
      · subst hxid
        rw [setColor_same] at hx
        cases hx
      · rw [setColor_other c id 1 x hxid] at hx
        exact hok x hx
    rcases hQ (setColor c id 1) (depsOf g id) c2 hr1 hok1 hd with
      ⟨hok2, hds2, hpres2, hgrey2, hr2⟩
    have hc' : c' = setColor c2 id 2 := heq.symm
    subst hc'
    have haccid : Acc (depRel g) id := by
      constructor
      intro y hy
      exact hok2 y (hds2 y hy)
    refine ⟨?_, setColor_same _ _ _, ?_, ?_, ?_⟩
    · intro x hx
      by_cases hxid : x = id
      · subst hxid
        exact haccid
      · rw [setColor_other c2 id 2 x hxid] at hx
        exact hok2 x hx
    · intro x hx
      by_cases hxid : x = id
      · subst hxid
        exact setColor_same _ _ _
      · rw [setColor_other c2 id 2 x hxid]
        refine hpres2 x ?_
        rw [setColor_other c id 1 x hxid]
        exact hx
    · intro x hx
      by_cases hxid : x = id
      · subst hxid
        rw [setColor_same] at hx
        cases hx
      · rw [setColor_other c2 id 2 x hxid] at hx
        have := hgrey2 x hx
        rw [setColor_other c id 1 x hxid] at this
        exact this
    · intro x
      by_cases hxid : x = id
      · subst hxid
        rw [setColor_same]
      · rw [setColor_other c2 id 2 x hxid]
        exact hr2 x
  · simp at heq

theorem dfsVisitInv_all (g : List PlanNode) (fuel : Nat) : VisitSpec g (dfsVisit g fuel) := by
  induction fuel with
  | zero => exact dfsVisitInv_zero g
  | succ fuel ih => exact dfsVisitInv_succ g fuel (depsSpec_of_visitSpec g _ ih)

theorem hasCyclesLoop_acc (g : List PlanNode) (fuel : Nat) :
    ∀ ids c, ColorsRange c → ColorsOk g c → (∀ x, c x ≠ 1) →
    hasCyclesLoop g fuel c ids = false → ∀ id ∈ ids, Acc (depRel g) id := by
  intro ids
  induction ids with
  | nil => intro c _ _ _ _ id hid; cases hid
  | cons a ids ih =>
    intro c hr hok hng hloop id hid
    rw [hasCyclesLoop] at hloop
    by_cases ha : c a == 0
    · simp only [ha, if_true] at hloop
      rcases hv : dfsVisit g fuel c a with ⟨b, c2⟩
      rw [hv] at hloop
      cases b
      · simp only at hloop
        rcases dfsVisitInv_all g fuel c a c2 (by simpa using ha) hr hok hv with
          ⟨hok2, hblack2, _, hgrey2, hr2⟩
        have hng2 : ∀ x, c2 x ≠ 1 := fun x hx => hng x (hgrey2 x hx)
        rcases List.mem_cons.mp hid with rfl | hid
        · exact hok2 id hblack2
        · exact ih c2 hr2 hok2 hng2 hloop id hid
      · simp at hloop
    · simp only [ha, if_false] at hloop
      have ha2 : c a = 2 := by
        have hle := hr a
        have hne0 : c a ≠ 0 := by simpa using ha
        have hne1 := hng a
        omega
      rcases List.mem_cons.mp hid with rfl | hid
      · exact hok id ha2
      · exact ih c hr hok hng hloop id hid

theorem acc_not_rel_self {α : Type} {s : α → α → Prop} {a : α} (h : Acc s a) : ¬ s a a := by
  induction h with
  | intro x hx ih => exact fun hxx => ih x hxx hxx

theorem transGen_exists_first {α : Type} {r : α → α → Prop} {a b : α}
    (h : Relation.TransGen r a b) : ∃ y, r a y := by
  induction h with
  | single h1 => exact ⟨_, h1⟩
  | tail _ _ ih => exact ih

/-- Completeness of the three-color DFS: any task map containing a dependency
cycle makes `hasCycles()` return `true`. -/
theorem hasCycles_complete (d : ExecutionDAG) (h : hasCycleProp d) :
    d.hasCycles = true := by
  by_contra hfalse
  rw [Bool.not_eq_true] at hfalse
  rcases h with ⟨a, hcyc⟩
  rcases transGen_exists_first hcyc with ⟨y, hy⟩
  rw [edgeTo] at hy
  have hamem : a ∈ d.tasks.map (fun t => t.id) := by
    rcases hfind : d.tasks.find? (fun t => t.id == a) with _ | t
    · rw [depsOf, hfind] at hy
      cases hy
    · have hmem := List.mem_of_find?_eq_some hfind
      have hpt := List.find?_some hfind
      have : t.id = a := by simpa using hpt
      subst this
      exact List.mem_map_of_mem _ hmem
  have hacc : Acc (depRel d.tasks) a := by
    refine hasCyclesLoop_acc d.tasks (dfsFuel d.tasks) (d.tasks.map (fun t => t.id))
      (fun _ => 0) (fun x => by norm_num) (fun x hx => by simp at hx) (fun x => by simp)
      ?_ a hamem
    exact hfalse
  have hacc' : Acc (Relation.TransGen (depRel d.tasks)) a := hacc.transGen
  have hswap : Relation.TransGen (depRel d.tasks) a a := by
    have hsw : Relation.TransGen (Function.swap (depRel d.tasks)) a a := hcyc
    exact Relation.transGen_swap.mp hsw
  exact acc_not_rel_self hacc' hswap

/-- Counterexample to claim C3: on the two-task cycle `A -> B -> A`,
`validate()` returns `valid = false` but its errors list holds only the fixed
string `"Cycle detected in task dependencies"`; no error in the list mentions
`A` or `B` (the reconstructed cycle path goes to `console.error`, not into the
returned errors), so no returned error identifies a cycle containing both. -/
theorem C3_counterexample :
    (ExecutionDAG.ofTasks
      [⟨"A", "a", ["B"], TaskStatus.pending, none, none⟩,
       ⟨"B", "b", ["A"], TaskStatus.pending, none, none⟩]).validate =
      { valid := false, errors := ["Cycle detected in task dependencies"] } ∧
    ∀ e ∈ (ExecutionDAG.ofTasks
      [⟨"A", "a", ["B"], TaskStatus.pending, none, none⟩,
       ⟨"B", "b", ["A"], TaskStatus.pending, none, none⟩]).validate.errors,
      strOccurs "A" e = false ∧ strOccurs "B" e = false := by
  decide

/-- Claim C3 (amended): for every task list containing a dependency cycle,
`validate()` returns `valid = false` together with the generic error message
`"Cycle detected in task dependencies"` in its errors list; the specific
cycle, reconstructed from the DFS recursion stack, is only written to the
console log, not to the errors list. -/
theorem C3_cycle_validation (d : ExecutionDAG) (h : hasCycleProp d) :
    d.validate.valid = false ∧
    "Cycle detected in task dependencies" ∈ d.validate.errors := by
  have hc := hasCycles_complete d h
  rw [ExecutionDAG.validate]
  simp [hc]

/-- Witness for the amended C3 at the concrete cycle `A -> B -> A`. -/
theorem C3_cycle_validation_witness :
    (ExecutionDAG.ofTasks
      [⟨"A", "a", ["B"], TaskStatus.pending, none, none⟩,
       ⟨"B", "b", ["A"], TaskStatus.pending, none, none⟩]).validate.valid = false ∧
    "Cycle detected in task dependencies" ∈
      (ExecutionDAG.ofTasks
        [⟨"A", "a", ["B"], TaskStatus.pending, none, none⟩,
         ⟨"B", "b", ["A"], TaskStatus.pending, none, none⟩]).validate.errors := by
  refine C3_cycle_validation _ ⟨"A", ?_⟩
  refine Relation.TransGen.head (b := "B") ?_ (Relation.TransGen.single ?_)
  · show "B" ∈ depsOf _ "A"
    decide
  · show "A" ∈ depsOf _ "B"
    decide

/-! ### Claim C9: Kahn layering -/

theorem degGet_cons (p : String × Int) (rest : Degrees) (x : String) :
    degGet (p :: rest) x = if p.1 == x then p.2 else degGet rest x := by
  rw [degGet, degGet, List.find?_cons]
  by_cases h : p.1 == x <;> simp [h]

theorem degSet_cons (p : String × Int) (rest : Degrees) (k : String) (v : Int) :
    degSet (p :: rest) k v = (if p.1 == k then (p.1, v) else p) :: degSet rest k v := by
  rw [degSet, degSet, List.map_cons]

theorem degSet_keys (degs : Degrees) (k : String) (v : Int) :
    (degSet degs k v).map Prod.fst = degs.map Prod.fst := by
  induction degs with
  | nil => rfl
  | cons p rest ih =>
    rw [degSet_cons, List.map_cons, List.map_cons, ih]
    by_cases h : p.1 == k <;> simp [h]

theorem degGet_degSet_same (degs : Degrees) (k : String) (v : Int)
    (h : k ∈ degs.map Prod.fst) : degGet (degSet degs k v) k = v := by
  induction degs with
  | nil => cases h
  | cons p rest ih =>
    rw [degSet_cons, degGet_cons]
    by_cases hp : p.1 == k
    · simp [hp]
    · have hp1 : p.1 ≠ k := by simpa using hp
      simp only [hp, if_false]
      rw [if_neg (by simpa using hp)]
      refine ih ?_
      simp only [List.map_cons, List.mem_cons] at h
      rcases h with h1 | h1
      · exact absurd h1.symm hp1
      · exact h1

theorem degGet_degSet_other (degs : Degrees) (k : String) (v : Int) (x : String)
    (h : x ≠ k) : degGet (degSet degs k v) x = degGet degs x := by
  induction degs with
  | nil => rfl
  | cons p rest ih =>
    rw [degSet_cons, degGet_cons, degGet_cons]
    by_cases hp : p.1 == k
    · have hpk : p.1 = k := by simpa using hp
      rw [if_pos hp]
      have h1 : (((p.1, v) : String × Int).1 == x) = false := by
        simp [hpk, Ne.symm h]
      have h2 : (p.1 == x) = false := by
        simp [hpk, Ne.symm h]
      simp only [h1, h2, Bool.false_eq_true, if_false, ih]
    · rw [if_neg hp]
      by_cases h2 : p.1 == x <;> simp [h2, ih]

theorem decDeps_fold_spec (x : String) (gl : List PlanNode) :
    ∀ degs q, (gl.map (fun t => t.id)).Nodup →
    (∀ u ∈ gl, u.id ∈ degs.map Prod.fst) →
    (List.foldl (decStep x) (degs, q) gl).1.map Prod.fst = degs.map Prod.fst ∧
    (∀ id', id' ∉ gl.map (fun t => t.id) →
      degGet (List.foldl (decStep x) (degs, q) gl).1 id' = degGet degs id') ∧
    (∀ u ∈ gl, degGet (List.foldl (decStep x) (degs, q) gl).1 u.id =
      if x ∈ u.dependsOn then degGet degs u.id - 1 else degGet degs u.id) ∧
    (List.foldl (decStep x) (degs, q) gl).2 =
      q ++ (gl.filter (fun u => decide (x ∈ u.dependsOn) &&
        (degGet degs u.id == 1))).map (fun t => t.id) := by
  induction gl with
  | nil =>
    intro degs q _ _
    exact ⟨rfl, fun _ _ => rfl, by simp, by simp⟩
  | cons u gl ih =>
    intro degs q hnd hkeys
    rw [List.map_cons, List.nodup_cons] at hnd
    rcases hnd with ⟨huid, hnd⟩
    have hukey : u.id ∈ degs.map Prod.fst := hkeys u (by simp)
    rw [List.foldl_cons]
    by_cases hx : x ∈ u.dependsOn
    · have hcont : u.dependsOn.contains x = true := by
        simpa using hx
      rw [decStep, if_pos hcont]
      set nd := degGet degs u.id - 1 with hnd_def
      set degs1 := degSet degs u.id nd with hdegs1
      set q1 := if nd == 0 then q ++ [u.id] else q with hq1
      have hkeys1 : degs1.map Prod.fst = degs.map Prod.fst := degSet_keys degs u.id nd
      have hkeys' : ∀ w ∈ gl, w.id ∈ degs1.map Prod.fst := by
        intro w hw
        rw [hkeys1]
        exact hkeys w (by simp [hw])
      rcases ih degs1 q1 hnd hkeys' with ⟨ik, iun, iper, iq⟩
      have hdg1u : degGet degs1 u.id = nd := degGet_degSet_same degs u.id nd hukey
      have hdg1w : ∀ w ∈ gl, degGet degs1 w.id = degGet degs w.id := by
        intro w hw
        refine degGet_degSet_other degs u.id nd w.id ?_
        intro hcon
        exact huid (hcon ▸ List.mem_map_of_mem _ hw)
      refine ⟨by rw [ik, hkeys1], ?_, ?_, ?_⟩
      · intro id' hid'
        have h1 : id' ∉ gl.map (fun t => t.id) := fun hc => hid' (by simp [hc])
        have h2 : id' ≠ u.id := fun hc => hid' (by simp [hc])
        rw [iun id' h1, degGet_degSet_other degs u.id nd id' h2]
      · intro w hw
        rcases List.mem_cons.mp hw with rfl | hw
        · rw [iun w.id huid, hdg1u, if_pos hx]
        · rw [iper w hw]
          by_cases hxw : x ∈ w.dependsOn <;> simp [hxw, hdg1w w hw]
      · rw [iq]
        have hfc : gl.filter (fun w => decide (x ∈ w.dependsOn) &&
            (degGet degs1 w.id == 1)) =
            gl.filter (fun w => decide (x ∈ w.dependsOn) && (degGet degs w.id == 1)) := by
          refine List.filter_congr ?_
          intro w hw
          rw [hdg1w w hw]
        rw [hfc]
        have hpredu : (decide (x ∈ u.dependsOn) && (degGet degs u.id == 1)) =
            (nd == 0) := by
          have : (degGet degs u.id == 1) = (nd == 0) := by
            by_cases h1 : degGet degs u.id = 1
            · simp [h1, hnd_def]
            · have h2 : nd ≠ 0 := by
                rw [hnd_def]
                omega
              simp [h1, h2]
          simp [hx, this]
        rw [List.filter_cons, hpredu]
        by_cases hz : (nd == 0) = true
        · simp [hz, hq1]
        · simp [hz, hq1]
    · have hcont : u.dependsOn.contains x = false := by
        simpa using hx
      simp only [decStep, hcont, Bool.false_eq_true, if_false]
      rcases ih degs q hnd (fun w hw => hkeys w (by simp [hw])) with ⟨ik, iun, iper, iq⟩
      refine ⟨ik, ?_, ?_, ?_⟩
      · intro id' hid'
        exact iun id' (fun hc => hid' (by simp [hc]))
      · intro w hw
        rcases List.mem_cons.mp hw with rfl | hw
        · rw [iun w.id huid, if_neg hx]
        · exact iper w hw
      · rw [iq, List.filter_cons]
        have : (decide (x ∈ u.dependsOn) && (degGet degs u.id == 1)) = false := by
          simp [hx]
        rw [this]
        simp

theorem find?_id_of_mem (g : List PlanNode) (hnd : (gIds g).Nodup) (t : PlanNode)
    (ht : t ∈ g) : g.find? (fun u => u.id == t.id) = some t := by
  induction g with
  | nil => cases ht
  | cons u g ih =>
    rw [gIds, List.map_cons, List.nodup_cons] at hnd
    rcases List.mem_cons.mp ht with rfl | ht'
    · rw [List.find?_cons]
      simp
    · rw [List.find?_cons]
      have hne : (u.id == t.id) = false := by
        simp only [beq_eq_false_iff_ne]
        intro hc
        exact hnd.1 (hc ▸ List.mem_map_of_mem (fun t => t.id) ht')
      rw [hne]
      exact ih hnd.2 ht'

theorem id_inj (g : List PlanNode) (hnd : (gIds g).Nodup) (t u : PlanNode)
    (ht : t ∈ g) (hu : u ∈ g) (h : t.id = u.id) : t = u := by
  have h1 := find?_id_of_mem g hnd t ht
  have h2 := find?_id_of_mem g hnd u hu
  rw [← h] at h2
  rw [h1] at h2
  exact Option.some.inj h2

theorem filter_mem_append_singleton (P : List String) (a : String) (ha : a ∉ P) :
    ∀ l : List String, l.Nodup →
    (l.filter (fun d => decide (d ∈ P ++ [a]))).length =
    (l.filter (fun d => decide (d ∈ P))).length + (if a ∈ l then 1 else 0) := by
  intro l
  induction l with
  | nil => intro _; simp
  | cons d rest ih =>
    intro hnd
    rw [List.nodup_cons] at hnd
    obtain ⟨hd, hrest⟩ := hnd
    have ihr := ih hrest
    rw [List.filter_cons, List.filter_cons]
    by_cases hda : d = a
    · subst hda
      have hc1 : (decide (d ∈ P ++ [d])) = true := by simp
      have hc2 : (decide (d ∈ P)) = false := by simpa using ha
      rw [hc1, if_pos rfl, hc2]
      rw [if_neg (by simp : ¬(false = true))]
      rw [if_neg hd] at ihr
      rw [if_pos (List.mem_cons_self d rest)]
      rw [List.length_cons, ihr]
    · by_cases hdP : d ∈ P
      · have hc1 : (decide (d ∈ P ++ [a])) = true := by simp [hdP]
        have hc2 : (decide (d ∈ P)) = true := by simpa using hdP
        rw [hc1, if_pos rfl, hc2, if_pos rfl, List.length_cons, List.length_cons]
        by_cases hal : a ∈ rest
        · rw [if_pos hal] at ihr
          rw [if_pos (List.mem_cons_of_mem d hal), ihr]
        · rw [if_neg hal] at ihr
          rw [if_neg (by simp [Ne.symm hda, hal]), ihr]
      · have hc1 : (decide (d ∈ P ++ [a])) = false := by simp [hdP, hda]
        have hc2 : (decide (d ∈ P)) = false := by simpa using hdP
        rw [hc1, hc2]
        rw [if_neg (by simp : ¬(false = true)), if_neg (by simp : ¬(false = true))]
        by_cases hal : a ∈ rest
        · rw [if_pos hal] at ihr
          rw [if_pos (List.mem_cons_of_mem d hal), ihr]
        · rw [if_neg hal] at ihr
          rw [if_neg (by simp [Ne.symm hda, hal]), ihr]

theorem nodup_append_fresh {α : Type} (l new : List α) (hl : l.Nodup) (hn : new.Nodup)
    (hf : ∀ x ∈ new, x ∉ l) : (l ++ new).Nodup := by
  rw [List.nodup_append]
  exact ⟨hl, hn, fun a ha hna => hf a hna ha⟩

theorem filter_all_length (l P : List String) (h : ∀ x ∈ l, x ∈ P) :
    (l.filter (fun d => decide (d ∈ P))).length = l.length := by
  rw [List.filter_eq_self.mpr (fun a ha => by simpa using h a ha)]

theorem all_of_filter_full (l P : List String)
    (h : (l.filter (fun d => decide (d ∈ P))).length = l.length) :
    ∀ x ∈ l, x ∈ P := by
  have hsub : (l.filter (fun d => decide (d ∈ P))).Sublist l := List.filter_sublist l
  have heq := hsub.eq_of_length h
  intro x hx
  rw [← heq] at hx
  have := List.of_mem_filter hx
  simpa using this

theorem processIds_spec (g : List PlanNode) (hgnd : (gIds g).Nodup)
    (hdeps : ∀ t ∈ g, t.dependsOn.Nodup) (base : List String) :
    ∀ rem layer degs newQ,
    KahnInnerInv g base degs rem layer newQ →
    (processIds g rem (layer, degs, newQ)).1.map (fun t => t.id) =
      layer.map (fun t => t.id) ++ rem ∧
    KahnInnerInv g base (processIds g rem (layer, degs, newQ)).2.1 []
      (processIds g rem (layer, degs, newQ)).1
      (processIds g rem (layer, degs, newQ)).2.2 := by
  intro rem
  induction rem with
  | nil =>
    intro layer degs newQ inv
    rw [processIds]
    exact ⟨by simp, inv⟩
  | cons a rest ih =>
    intro layer degs newQ inv
    have haIds : a ∈ gIds g := inv.subset a (by simp)
    obtain ⟨t, htg, hta⟩ := List.mem_map.mp (by rw [gIds] at haIds; exact haIds)
    have hfind : g.find? (fun u => u.id == a) = some t := by
      have := find?_id_of_mem g hgnd t htg
      rw [hta] at this
      exact this
    have hstep : processIds g (a :: rest) (layer, degs, newQ) =
        processIds g rest (layer ++ [t],
          (decDeps g a (degs, newQ)).1, (decDeps g a (degs, newQ)).2) := by
      rw [processIds, hfind]
    have hkeysmem : ∀ u ∈ g, u.id ∈ degs.map Prod.fst := by
      intro u hu
      rw [inv.keys, gIds]
      exact List.mem_map_of_mem _ hu
    have hspec := decDeps_fold_spec a g degs newQ hgnd hkeysmem
    rw [show List.foldl (decStep a) (degs, newQ) g = decDeps g a (degs, newQ) from rfl]
      at hspec
    obtain ⟨sk, sun, sper, sq⟩ := hspec
    have hnodup0 : ((base ++ layer.map (fun t => t.id)) ++ (a :: rest) ++ newQ).Nodup :=
      inv.nodup
    have haP : a ∉ base ++ layer.map (fun t => t.id) := by
      intro hc
      have hd := (List.nodup_append.mp (by rwa [List.append_assoc] at hnodup0)).2.2
      exact hd hc (by simp)
    have hdeg0 : ∀ u ∈ g,
        (∀ dep ∈ u.dependsOn, dep ∈ base ++ layer.map (fun t => t.id)) →
        degGet degs u.id = 0 := by
      intro u hu hall
      rw [inv.deg u hu, filter_all_length u.dependsOn _ hall]
      omega
    have htracked : ∀ u ∈ g,
        u.id ∈ base ++ layer.map (fun t => t.id) ∨ u.id ∈ a :: rest ∨ u.id ∈ newQ →
        ∀ dep ∈ u.dependsOn, dep ∈ base ++ layer.map (fun t => t.id) := by
      intro u hu hcase dep hdep
      rcases hcase with hc | hc | hc
      · rcases List.mem_append.mp hc with hc1 | hc1
        · exact List.mem_append_left _ (inv.baseDeps u hu hc1 dep hdep)
        · obtain ⟨w, hw, hwid⟩ := List.mem_map.mp hc1
          have hwg := (inv.layerMem w hw).1
          have hwu : w = u := id_inj g hgnd w u hwg hu hwid
          subst hwu
          exact List.mem_append_left _ ((inv.layerMem w hw).2 dep hdep)
      · exact List.mem_append_left _ (inv.remDeps u.id hc u hu rfl dep hdep)
      · exact inv.newQDeps u.id hc u hu rfl dep hdep
    have hfresh : ∀ x ∈ (g.filter (fun u => decide (a ∈ u.dependsOn) &&
          (degGet degs u.id == 1))).map (fun t => t.id),
        x ∉ (base ++ layer.map (fun t => t.id)) ++ (a :: rest) ++ newQ := by
      intro x hx hmem
      obtain ⟨u, hu, hux⟩ := List.mem_map.mp hx
      have huf := List.of_mem_filter hu
      have hug := List.mem_of_mem_filter hu
      rw [Bool.and_eq_true] at huf
      have hdeg1 : degGet degs u.id = 1 := by
        have := huf.2
        simpa using this
      have hall : ∀ dep ∈ u.dependsOn, dep ∈ base ++ layer.map (fun t => t.id) := by
        refine htracked u hug ?_
        rw [← hux] at hmem
        rcases List.mem_append.mp hmem with hc | hc
        · rcases List.mem_append.mp hc with hc1 | hc1
          · exact Or.inl hc1
          · exact Or.inr (Or.inl hc1)
        · exact Or.inr (Or.inr hc)
      rw [hdeg0 u hug hall] at hdeg1
      cases hdeg1
    have hnewnodup : ((g.filter (fun u => decide (a ∈ u.dependsOn) &&
        (degGet degs u.id == 1))).map (fun t => t.id)).Nodup := by
      have hsub : ((g.filter (fun u => decide (a ∈ u.dependsOn) &&
          (degGet degs u.id == 1))).map (fun t => t.id)).Sublist
          (g.map (fun t => t.id)) :=
        (List.filter_sublist g).map _
      exact hsub.nodup hgnd
    have hPeq : base ++ (layer ++ [t]).map (fun t => t.id) =
        (base ++ layer.map (fun t => t.id)) ++ [a] := by
      rw [List.map_append, ← List.append_assoc]
      simp [hta]
    have inv' : KahnInnerInv g base (decDeps g a (degs, newQ)).1 rest (layer ++ [t])
        (decDeps g a (degs, newQ)).2 := by
      refine ⟨?_, ?_, ?_, ?_, ?_, ?_, ?_, ?_, ?_⟩
      · rw [sk, inv.keys]
      · rw [hPeq, sq]
        have heq : (((base ++ layer.map (fun t => t.id)) ++ [a]) ++ rest ++
            (newQ ++ (g.filter (fun u => decide (a ∈ u.dependsOn) &&
              (degGet degs u.id == 1))).map (fun t => t.id))) =
            (((base ++ layer.map (fun t => t.id)) ++ (a :: rest) ++ newQ) ++
              (g.filter (fun u => decide (a ∈ u.dependsOn) &&
                (degGet degs u.id == 1))).map (fun t => t.id)) := by
          simp
        rw [heq]
        exact nodup_append_fresh _ _ hnodup0 hnewnodup hfresh
      · intro x hx
        rw [hPeq, sq] at hx
        rcases List.mem_append.mp hx with hc | hc
        · rcases List.mem_append.mp hc with hc1 | hc1
          · rcases List.mem_append.mp hc1 with hc2 | hc2
            · exact inv.subset x
                (List.mem_append_left _ (List.mem_append_left _ hc2))
            · have hxa : x = a := by simpa using hc2
              subst hxa
              exact haIds
          · exact inv.subset x (List.mem_append_left _
              (List.mem_append_right _ (List.mem_cons_of_mem _ hc1)))
        · rcases List.mem_append.mp hc with hc1 | hc1
          · exact inv.subset x (List.mem_append_right _ hc1)
          · obtain ⟨u, hu, hux⟩ := List.mem_map.mp hc1
            rw [gIds, ← hux]
            exact List.mem_map_of_mem _ (List.mem_of_mem_filter hu)
      · intro u hu
        rw [hPeq, sper u hu, inv.deg u hu]
        have hcount := filter_mem_append_singleton
          (base ++ layer.map (fun t => t.id)) a haP u.dependsOn (hdeps u hu)
        by_cases hau : a ∈ u.dependsOn
        · rw [if_pos hau]
          rw [if_pos hau] at hcount
          rw [hcount]
          push_cast
          omega
        · rw [if_neg hau]
          rw [if_neg hau] at hcount
          rw [hcount]
          push_cast
          omega
      · intro x hx u hu hux dep hdep
        exact inv.remDeps x (by simp [hx]) u hu hux dep hdep
      · intro x hx u hu hux dep hdep
        rw [hPeq]
        rw [sq] at hx
        rcases List.mem_append.mp hx with hc | hc
        · exact List.mem_append_left _ (inv.newQDeps x hc u hu hux dep hdep)
        · obtain ⟨w, hw, hwx⟩ := List.mem_map.mp hc
          have hwg := List.mem_of_mem_filter hw
          have hwf := List.of_mem_filter hw
          rw [Bool.and_eq_true] at hwf
          have hwa : a ∈ w.dependsOn := by simpa using hwf.1
          have hwdeg : degGet degs w.id = 1 := by simpa using hwf.2
          have hwu : w = u := id_inj g hgnd w u hwg hu (hwx.trans hux.symm)
          subst hwu
          have hdegini := inv.deg w hwg
          rw [hwdeg] at hdegini
          have hcount := filter_mem_append_singleton
            (base ++ layer.map (fun t => t.id)) a haP w.dependsOn (hdeps w hwg)
          rw [if_pos hwa] at hcount
          have hle : ((w.dependsOn.filter (fun d =>
              decide (d ∈ base ++ layer.map (fun t => t.id)))).length) ≤
              w.dependsOn.length := (List.filter_sublist _).length_le
          have hflen : ((w.dependsOn.filter (fun d =>
              decide (d ∈ (base ++ layer.map (fun t => t.id)) ++ [a]))).length) =
              w.dependsOn.length := by
            omega
          exact all_of_filter_full _ _ hflen dep hdep
      · intro u hu hall
        rw [hPeq] at hall ⊢
        by_cases hallP : ∀ dep ∈ u.dependsOn, dep ∈ base ++ layer.map (fun t => t.id)
        · rcases inv.trigger u hu hallP with hc | hc | hc
          · exact Or.inl (List.mem_append_left _ hc)
          · rcases List.mem_cons.mp hc with hc1 | hc1
            · exact Or.inl (List.mem_append_right _ (by simp [hc1]))
            · exact Or.inr (Or.inl hc1)
          · refine Or.inr (Or.inr ?_)
            rw [sq]
            exact List.mem_append_left _ hc
        · have hau : a ∈ u.dependsOn := by
            by_contra hau
            refine hallP ?_
            intro dep hdep
            rcases List.mem_append.mp (hall dep hdep) with hc | hc
            · exact hc
            · have hda : dep = a := by simpa using hc
              subst hda
              exact absurd hdep hau
          have hcount := filter_mem_append_singleton
            (base ++ layer.map (fun t => t.id)) a haP u.dependsOn (hdeps u hu)
          rw [if_pos hau] at hcount
          have hfull : (u.dependsOn.filter (fun d =>
              decide (d ∈ (base ++ layer.map (fun t => t.id)) ++ [a]))).length =
              u.dependsOn.length := filter_all_length _ _ hall
          have hle : ((u.dependsOn.filter (fun d =>
              decide (d ∈ base ++ layer.map (fun t => t.id)))).length) ≤
              u.dependsOn.length := (List.filter_sublist _).length_le
          have hdeg1 : degGet degs u.id = 1 := by
            rw [inv.deg u hu]
            omega
          refine Or.inr (Or.inr ?_)
          rw [sq]
          refine List.mem_append_right _ ?_
          refine List.mem_map_of_mem _ ?_
          refine List.mem_filter.mpr ⟨hu, ?_⟩
          simp [hau, hdeg1]
      · intro w hw
        rcases List.mem_append.mp hw with hc | hc
        · exact inv.layerMem w hc
        · have hwt : w = t := by simpa using hc
          subst hwt
          exact ⟨htg, fun dep hdep => inv.remDeps a (by simp) w htg hta dep hdep⟩
      · exact inv.baseDeps
    have ihr := ih (layer ++ [t]) (decDeps g a (degs, newQ)).1
      (decDeps g a (degs, newQ)).2 inv'
    rw [hstep]
    refine ⟨?_, ihr.2⟩
    rw [ihr.1, List.map_append]
    simp [hta]

theorem flatIds_append_single (acc : List (List PlanNode)) (L : List PlanNode) :
    flatIds (acc ++ [L]) = flatIds acc ++ L.map (fun t => t.id) := by
  simp [flatIds]

theorem kahnStep_spec (g : List PlanNode) (hgnd : (gIds g).Nodup)
    (hdeps : ∀ t ∈ g, t.dependsOn.Nodup) (degs : Degrees) (queue : List String)
    (acc : List (List PlanNode)) (inv : KahnInv g degs queue acc) :
    (processIds g queue ([], degs, [])).1.map (fun t => t.id) = queue ∧
    KahnInv g (processIds g queue ([], degs, [])).2.1
      (processIds g queue ([], degs, [])).2.2
      (acc ++ [(processIds g queue ([], degs, [])).1]) := by
  have innerInv : KahnInnerInv g (flatIds acc) degs queue [] [] := by
    refine ⟨inv.keys, ?_, ?_, ?_, ?_, ?_, ?_, ?_, ?_⟩
    · simpa using inv.nodup
    · intro x hx
      exact inv.subset x (by simpa using hx)
    · intro t ht
      have := inv.deg t ht
      simpa using this
    · intro x hx u hu hux dep hdep
      exact inv.queueDeps x hx u hu hux dep hdep
    · intro x hx
      cases hx
    · intro t ht hall
      rcases inv.trigger t ht (by simpa using hall) with hc | hc
      · exact Or.inl (by simpa using hc)
      · exact Or.inr (Or.inl hc)
    · intro t ht
      cases ht
    · intro t ht hbase dep hdep
      exact inv.procDeps t ht hbase dep hdep
  obtain ⟨hids, hinner⟩ := processIds_spec g hgnd hdeps (flatIds acc) queue [] degs []
    innerInv
  rw [List.map_nil, List.nil_append] at hids
  refine ⟨hids, ?_⟩
  have hfl : flatIds (acc ++ [(processIds g queue ([], degs, [])).1]) =
      flatIds acc ++ queue := by
    rw [flatIds_append_single, hids]
  refine ⟨hinner.keys, ?_, ?_, ?_, ?_, ?_, ?_, ?_, ?_⟩
  · rw [hfl]
    have := hinner.nodup
    rw [hids] at this
    simpa using this
  · intro x hx
    rw [hfl] at hx
    refine hinner.subset x ?_
    rw [hids]
    simpa using hx
  · intro t ht
    have := hinner.deg t ht
    rw [hids] at this
    rw [hfl]
    exact this
  · intro x hx u hu hux dep hdep
    rw [hfl]
    have := hinner.newQDeps x hx u hu hux dep hdep
    rw [hids] at this
    exact this
  · intro t ht hall
    rw [hfl] at hall ⊢
    have hall' : ∀ dep ∈ t.dependsOn,
        dep ∈ flatIds acc ++
          (processIds g queue ([], degs, [])).1.map (fun t => t.id) := by
      intro dep hdep
      rw [hids]
      exact hall dep hdep
    rcases hinner.trigger t ht hall' with hc | hc | hc
    · rw [hids] at hc
      exact Or.inl hc
    · cases hc
    · exact Or.inr hc
  · intro t ht hmem dep hdep
    rw [hfl] at hmem ⊢
    rcases List.mem_append.mp hmem with hc | hc
    · exact List.mem_append_left _ (hinner.baseDeps t ht hc dep hdep)
    · rw [← hids] at hc
      obtain ⟨u, hu, hut⟩ := List.mem_map.mp hc
      have hug := (hinner.layerMem u hu).1
      have huid : u = t := id_inj g hgnd u t hug ht hut
      subst huid
      exact List.mem_append_left _ ((hinner.layerMem u hu).2 dep hdep)
  · intro k L hkL t ht dep hdep
    by_cases hk : k < acc.length
    · have hacck : acc[k]? = some L := by
        rw [List.getElem?_append_left hk] at hkL
        exact hkL
      obtain ⟨j, hj, L', hL', u, hu, huid⟩ := inv.layersOk k L hacck t ht dep hdep
      refine ⟨j, hj, L', ?_, u, hu, huid⟩
      rw [List.getElem?_append_left (lt_trans hj hk)]
      exact hL'
    · have hklen : k = acc.length := by
        have hlt : k < (acc ++ [(processIds g queue ([], degs, [])).1]).length := by
          exact List.getElem?_eq_some.mp hkL |>.1
        rw [List.length_append, List.length_singleton] at hlt
        omega
      subst hklen
      have hL : L = (processIds g queue ([], degs, [])).1 := by
        rw [List.getElem?_append_right (le_refl _)] at hkL
        simp at hkL
        exact hkL.symm
      subst hL
      have hdepbase : dep ∈ flatIds acc := (hinner.layerMem t ht).2 dep hdep
      rw [flatIds] at hdepbase
      obtain ⟨u, hu, huid⟩ := List.mem_map.mp hdepbase
      obtain ⟨L', hL', huL'⟩ := List.mem_flatten.mp hu
      obtain ⟨j, hj⟩ := List.mem_iff_getElem?.mp hL'
      have hjlt : j < acc.length := List.getElem?_eq_some.mp hj |>.1
      refine ⟨j, hjlt, L', ?_, u, huL', huid⟩
      rw [List.getElem?_append_left hjlt]
      exact hj
  · intro L hL t ht
    rcases List.mem_append.mp hL with hc | hc
    · exact inv.accMem L hc t ht
    · have hLp : L = (processIds g queue ([], degs, [])).1 := by simpa using hc
      subst hLp
      exact (hinner.layerMem t ht).1

theorem degGet_init (g : List PlanNode) (hnd : (gIds g).Nodup) (f : PlanNode → Int)
    (t : PlanNode) (ht : t ∈ g) :
    degGet (g.map (fun u => (u.id, f u))) t.id = f t := by
  induction g with
  | nil => cases ht
  | cons u rest ih =>
    rw [gIds, List.map_cons, List.nodup_cons] at hnd
    rw [List.map_cons, degGet_cons]
    rcases List.mem_cons.mp ht with rfl | ht'
    · simp
    · have hne : ((u.id, f u).1 == t.id) = false := by
        simp only [beq_eq_false_iff_ne]
        intro hc
        exact hnd.1 (hc ▸ List.mem_map_of_mem (fun t => t.id) ht')
      rw [hne]
      exact ih hnd.2 ht'

theorem kahnLoop_spec (g : List PlanNode) (hgnd : (gIds g).Nodup)
    (hdeps : ∀ t ∈ g, t.dependsOn.Nodup) :
    ∀ fuel degs queue acc, KahnInv g degs queue acc →
    g.length + 1 ≤ fuel + (flatIds acc).length →
    ∃ degsF, KahnInv g degsF [] (kahnLoop g fuel degs queue acc) := by
  intro fuel
  induction fuel with
  | zero =>
    intro degs queue acc inv hfuel
    exfalso
    have hnd : (flatIds acc).Nodup := (List.nodup_append.mp inv.nodup).1
    have hsub : flatIds acc ⊆ gIds g :=
      fun x hx => inv.subset x (List.mem_append_left _ hx)
    have hle := (List.subperm_of_subset hnd hsub).length_le
    rw [gIds, List.length_map] at hle
    omega
  | succ fuel ih =>
    intro degs queue acc inv hfuel
    rw [kahnLoop]
    by_cases hq : queue.isEmpty
    · rw [if_pos hq]
      have hqnil : queue = [] := List.isEmpty_iff.mp hq
      subst hqnil
      exact ⟨degs, inv⟩
    · rw [if_neg hq]
      have hqne : queue ≠ [] := by simpa [List.isEmpty_iff] using hq
      obtain ⟨hids, hinv'⟩ := kahnStep_spec g hgnd hdeps degs queue acc inv
      have hlayerne : (processIds g queue ([], degs, [])).1.isEmpty = false := by
        rw [List.isEmpty_eq_false_iff_exists_mem]
        rcases queue with _ | ⟨a, rest⟩
        · exact absurd rfl hqne
        · rcases hL : (processIds g (a :: rest) ([], degs, [])).1 with _ | ⟨w, ws⟩
          · rw [hL] at hids
            cases hids
          · exact ⟨w, by simp⟩
      simp only [hlayerne, Bool.false_eq_true, if_false]
      refine ih _ _ _ hinv' ?_
      rw [flatIds_append_single, hids, List.length_append]
      have hqpos : 0 < queue.length := List.length_pos.mpr hqne
      omega

theorem validate_deps_exist (d : ExecutionDAG) (h : d.validate.valid = true) :
    ∀ t ∈ d.tasks, ∀ dep ∈ t.dependsOn, dep ∈ gIds d.tasks := by
  intro t ht dep hdep
  by_contra hmiss
  have hmem : missingDepMsg t.id dep ∈ missingDepErrors d := by
    rw [missingDepErrors, mem_foldl_append]
    refine Or.inr ⟨t, ht, List.mem_map_of_mem _ ?_⟩
    rw [List.mem_filter]
    refine ⟨hdep, ?_⟩
    simp only [Bool.not_eq_true', List.any_eq_false, beq_iff_eq]
    intro u hu hc
    exact hmiss (hc ▸ List.mem_map_of_mem (fun t => t.id) hu)
  rw [ExecutionDAG.validate] at h
  by_cases hc : d.hasCycles
  · simp only [hc, if_true] at h
    rw [List.isEmpty_iff] at h
    have := List.mem_append_left ["Cycle detected in task dependencies"] hmem
    rw [h] at this
    cases this
  · simp only [hc, Bool.false_eq_true, if_false] at h
    rw [List.isEmpty_iff] at h
    rw [h] at hmem
    cases hmem

theorem kahn_layers_ok (d : ExecutionDAG)
    (hnd : (gIds d.tasks).Nodup)
    (hdeps : ∀ t ∈ d.tasks, t.dependsOn.Nodup)
    (hvalid : d.validate.valid = true)
    (hrank : RankedAcyclic d) :
    ∃ layers, d.getExecutionLayers = Except.ok layers ∧ LayersOk layers ∧
      ∀ t ∈ d.tasks, ∃ L ∈ layers, t ∈ L := by
  have inv0 : KahnInv d.tasks
      (d.tasks.map (fun t => (t.id, (t.dependsOn.length : Int))))
      ((d.tasks.filter (fun t => t.dependsOn.length == 0)).map (fun t => t.id)) [] := by
    refine ⟨?_, ?_, ?_, ?_, ?_, ?_, ?_, ?_, ?_⟩
    · simp [gIds]
    · have hq : (((d.tasks.filter (fun t => t.dependsOn.length == 0)).map
          (fun t => t.id))).Nodup :=
        ((List.filter_sublist _).map _).nodup hnd
      simpa [flatIds] using hq
    · intro x hx
      simp only [flatIds, List.flatten_nil, List.map_nil, List.nil_append] at hx
      obtain ⟨t, ht, hid⟩ := List.mem_map.mp hx
      rw [gIds, ← hid]
      exact List.mem_map_of_mem _ (List.mem_of_mem_filter ht)
    · intro t ht
      rw [degGet_init d.tasks hnd (fun t => (t.dependsOn.length : Int)) t ht]
      have hfe : (t.dependsOn.filter (fun dep => decide (dep ∈ flatIds []))) = [] := by
        simp [flatIds]
      rw [hfe]
      simp
    · intro x hx t ht hid dep hdep
      obtain ⟨w, hw, hwid⟩ := List.mem_map.mp hx
      have hwlen := List.of_mem_filter hw
      have hwnil : w.dependsOn = [] :=
        List.length_eq_zero.mp (by simpa using hwlen)
      have hwt : w = t :=
        id_inj d.tasks hnd w t (List.mem_of_mem_filter hw) ht (hwid.trans hid.symm)
      rw [← hwt, hwnil] at hdep
      cases hdep
    · intro t ht hall
      have hnil : t.dependsOn = [] := by
        rcases hdp : t.dependsOn with _ | ⟨e, es⟩
        · rfl
        · have := hall e (by rw [hdp]; simp)
          simp [flatIds] at this
      refine Or.inr (List.mem_map_of_mem _ ?_)
      rw [List.mem_filter]
      exact ⟨ht, by simp [hnil]⟩
    · intro t ht hmem
      simp [flatIds] at hmem
    · intro k L hkL
      cases hkL
    · intro L hL
      cases hL
  obtain ⟨degsF, invF⟩ := kahnLoop_spec d.tasks hnd hdeps (d.tasks.length + 1)
    (d.tasks.map (fun t => (t.id, (t.dependsOn.length : Int))))
    ((d.tasks.filter (fun t => t.dependsOn.length == 0)).map (fun t => t.id)) []
    inv0 (by simp [flatIds])
  obtain ⟨rank, hrankp⟩ := hrank
  have hdepex := validate_deps_exist d hvalid
  have hcover : ∀ n, ∀ t ∈ d.tasks, rank t.id < n →
      t.id ∈ flatIds (kahnLoop d.tasks (d.tasks.length + 1)
        (d.tasks.map (fun t => (t.id, (t.dependsOn.length : Int))))
        ((d.tasks.filter (fun t => t.dependsOn.length == 0)).map (fun t => t.id)) []) := by
    intro n
    induction n with
    | zero =>
      intro t ht h0
      omega
    | succ n ihn =>
      intro t ht hlt
      have hdepsin : ∀ dep ∈ t.dependsOn,
          dep ∈ flatIds (kahnLoop d.tasks (d.tasks.length + 1)
            (d.tasks.map (fun t => (t.id, (t.dependsOn.length : Int))))
            ((d.tasks.filter (fun t => t.dependsOn.length == 0)).map
              (fun t => t.id)) []) := by
        intro dep hdep
        have hdepg := hdepex t ht dep hdep
        rw [gIds] at hdepg
        obtain ⟨u, hu, huid⟩ := List.mem_map.mp hdepg
        have hurank : rank u.id < n := by
          have := hrankp t ht dep hdep
          rw [← huid] at this
          omega
        rw [← huid]
        exact ihn u hu hurank
      rcases invF.trigger t ht hdepsin with hc | hc
      · exact hc
      · cases hc
  have hcov : ∀ t ∈ d.tasks,
      t.id ∈ flatIds (kahnLoop d.tasks (d.tasks.length + 1)
        (d.tasks.map (fun t => (t.id, (t.dependsOn.length : Int))))
        ((d.tasks.filter (fun t => t.dependsOn.length == 0)).map (fun t => t.id)) []) :=
    fun t ht => hcover (rank t.id + 1) t ht (Nat.lt_succ_self _)
  have hAnd : (flatIds (kahnLoop d.tasks (d.tasks.length + 1)
      (d.tasks.map (fun t => (t.id, (t.dependsOn.length : Int))))
      ((d.tasks.filter (fun t => t.dependsOn.length == 0)).map
        (fun t => t.id)) [])).Nodup :=
    (List.nodup_append.mp invF.nodup).1
  have hsubA : flatIds (kahnLoop d.tasks (d.tasks.length + 1)
      (d.tasks.map (fun t => (t.id, (t.dependsOn.length : Int))))
      ((d.tasks.filter (fun t => t.dependsOn.length == 0)).map
        (fun t => t.id)) []) ⊆ gIds d.tasks :=
    fun x hx => invF.subset x (List.mem_append_left _ hx)
  have hsubB : gIds d.tasks ⊆ flatIds (kahnLoop d.tasks (d.tasks.length + 1)
      (d.tasks.map (fun t => (t.id, (t.dependsOn.length : Int))))
      ((d.tasks.filter (fun t => t.dependsOn.length == 0)).map
        (fun t => t.id)) []) := by
    intro x hx
    rw [gIds] at hx
    obtain ⟨t, ht, htid⟩ := List.mem_map.mp hx
    rw [← htid]
    exact hcov t ht
  have hlenAB := (List.subperm_of_subset hAnd hsubA).length_le
  have hlenBA := (List.subperm_of_subset hnd hsubB).length_le
  have hlen : (flatIds (kahnLoop d.tasks (d.tasks.length + 1)
      (d.tasks.map (fun t => (t.id, (t.dependsOn.length : Int))))
      ((d.tasks.filter (fun t => t.dependsOn.length == 0)).map
        (fun t => t.id)) [])).length = d.tasks.length := by
    rw [gIds, List.length_map] at hlenAB hlenBA
    omega
  have hflat : ∀ L : List (List PlanNode),
      (flatIds L).length = (L.map List.length).sum := by
    intro L
    rw [flatIds, List.length_map, List.length_flatten]
  have hsum : ((kahnLoop d.tasks (d.tasks.length + 1)
      (d.tasks.map (fun t => (t.id, (t.dependsOn.length : Int))))
      ((d.tasks.filter (fun t => t.dependsOn.length == 0)).map
        (fun t => t.id)) []).map List.length).sum = d.tasks.length := by
    rw [← hflat]
    exact hlen
  refine ⟨kahnLoop d.tasks (d.tasks.length + 1)
      (d.tasks.map (fun t => (t.id, (t.dependsOn.length : Int))))
      ((d.tasks.filter (fun t => t.dependsOn.length == 0)).map (fun t => t.id)) [],
    ?_, ?_, ?_⟩
  · rw [ExecutionDAG.getExecutionLayers]
    simp only [hsum, beq_self_eq_true, if_true]
  · exact invF.layersOk
  · intro t ht
    have hid := hcov t ht
    rw [flatIds] at hid
    obtain ⟨u, hu, huid⟩ := List.mem_map.mp hid
    obtain ⟨L, hL, huL⟩ := List.mem_flatten.mp hu
    have hug : u ∈ d.tasks := invF.accMem L hL u huL
    have hut : u = t := id_inj d.tasks hnd u t hug ht huid
    subst hut
    exact ⟨L, hL, huL⟩

/-- Counterexample to claim C9: the graph `A (no deps)`, `B (dependsOn [A, A])`
is valid (validate() accepts it) and acyclic (witnessed by a topological
rank), yet `getExecutionLayers()` throws `Cycle detected: processed 1 of 2
tasks`: the decrement pass subtracts one per dependent task while the
in-degree counts duplicate `dependsOn` entries twice, so `B` never reaches
in-degree `0`. -/
theorem C9_counterexample :
    (ExecutionDAG.ofTasks
      [⟨"A", "a", [], TaskStatus.pending, none, none⟩,
       ⟨"B", "b", ["A", "A"], TaskStatus.pending, none, none⟩]).validate.valid = true ∧
    RankedAcyclic (ExecutionDAG.ofTasks
      [⟨"A", "a", [], TaskStatus.pending, none, none⟩,
       ⟨"B", "b", ["A", "A"], TaskStatus.pending, none, none⟩]) ∧
    (ExecutionDAG.ofTasks
      [⟨"A", "a", [], TaskStatus.pending, none, none⟩,
       ⟨"B", "b", ["A", "A"], TaskStatus.pending, none, none⟩]).getExecutionLayers =
      Except.error "Cycle detected: processed 1 of 2 tasks" := by
  refine ⟨by decide, ⟨fun id => if id = "B" then 1 else 0, by decide⟩, by decide⟩

/-- Claim C9 (amended): for every valid acyclic graph whose `dependsOn` lists
are duplicate-free, `getExecutionLayers()` returns a topological batching —
every task appears in some layer and every dependency of a task in layer `k`
is the id of a task in a strictly earlier layer; on the concrete graph
`A (no deps)`, `B (no deps)`, `C (depends on A, B)` it returns exactly the two
layers `[A, B]` and `[C]`; and whenever the total number of tasks emitted
across layers differs from the graph's task count the method throws an error
(so a successful return always emits exactly the task count). -/
theorem C9_execution_layers (d : ExecutionDAG)
    (hnd : (gIds d.tasks).Nodup)
    (hdeps : ∀ t ∈ d.tasks, t.dependsOn.Nodup)
    (hvalid : d.validate.valid = true)
    (hrank : RankedAcyclic d) :
    (∃ layers, d.getExecutionLayers = Except.ok layers ∧ LayersOk layers ∧
      ∀ t ∈ d.tasks, ∃ L ∈ layers, t ∈ L) ∧
    (ExecutionDAG.ofTasks [nodeA9, nodeB9, nodeC9]).getExecutionLayers =
      Except.ok [[nodeA9, nodeB9], [nodeC9]] ∧
    (∀ d' : ExecutionDAG, ∀ layers, d'.getExecutionLayers = Except.ok layers →
      (layers.map List.length).sum = d'.tasks.length) := by
  refine ⟨kahn_layers_ok d hnd hdeps hvalid hrank, by decide, ?_⟩
  intro d' layers hok
  rw [ExecutionDAG.getExecutionLayers] at hok
  by_cases hc : (((kahnLoop d'.tasks (d'.tasks.length + 1)
      (d'.tasks.map (fun t => (t.id, (t.dependsOn.length : Int))))
      ((d'.tasks.filter (fun t => t.dependsOn.length == 0)).map
        (fun t => t.id)) []).map List.length).sum == d'.tasks.length) = true
  · simp only [hc, if_true] at hok
    cases hok
    simpa using hc
  · simp only [hc, Bool.false_eq_true, if_false] at hok
    cases hok

/-- Witness for the amended C9 on the concrete graph `A`, `B`, `C (deps A, B)`. -/
theorem C9_execution_layers_witness :
    ∃ layers, (ExecutionDAG.ofTasks [nodeA9, nodeB9, nodeC9]).getExecutionLayers =
      Except.ok layers ∧ LayersOk layers ∧
      ∀ t ∈ (ExecutionDAG.ofTasks [nodeA9, nodeB9, nodeC9]).tasks, ∃ L ∈ layers, t ∈ L :=
  (C9_execution_layers (ExecutionDAG.ofTasks [nodeA9, nodeB9, nodeC9])
    (by decide) (by decide) (by decide)
    ⟨fun id => if id = "C" then 1 else 0, by decide⟩).1


/-! ### Controller claims: fold characterizations, the all-failing-plan
scenario, the two-cycle replan scenario and the deadlock divergence -/

theorem mapSet_mem (ts : List PlanNode) (t : PlanNode) :
    ∀ u ∈ mapSet ts t, u ∈ ts ∨ u = t := by
  intro u hu
  rw [mapSet] at hu
  by_cases h : ts.any (fun v => v.id == t.id)
  · rw [if_pos h] at hu
    obtain ⟨w, hw, hwu⟩ := List.mem_map.mp hu
    by_cases hw2 : w.id == t.id
    · rw [if_pos hw2] at hwu
      exact Or.inr hwu.symm
    · rw [if_neg hw2] at hwu
      exact Or.inl (hwu ▸ hw)
  · rw [if_neg h] at hu
    rcases List.mem_append.mp hu with hc | hc
    · exact Or.inl hc
    · exact Or.inr (by simpa using hc)

theorem ofTasks_mem (l : List PlanNode) :
    ∀ u ∈ (ExecutionDAG.ofTasks l).tasks, u ∈ l := by
  rw [ExecutionDAG.ofTasks]
  suffices h : ∀ acc, (∀ u ∈ acc, u ∈ l) → ∀ u ∈ l.foldl mapSet acc, u ∈ l by
    exact h [] (fun u hu => by cases hu)
  have haux : ∀ (l' acc : List PlanNode), (∀ u ∈ acc, u ∈ l) → (∀ u ∈ l', u ∈ l) →
      ∀ u ∈ l'.foldl mapSet acc, u ∈ l := by
    intro l'
    induction l' with
    | nil => intro acc hacc _ u hu; exact hacc u hu
    | cons a rest ih =>
      intro acc hacc hsub u hu
      rw [List.foldl_cons] at hu
      refine ih (mapSet acc a) ?_ (fun v hv => hsub v (by simp [hv])) u hu
      intro v hv
      rcases mapSet_mem acc a v hv with hc | hc
      · exact hacc v hc
      · exact hc ▸ hsub a (by simp)
  intro acc hacc
  exact haux l acc hacc (fun u hu => hu)

theorem mark_fold_eq (rs ts : List PlanNode) :
    (rs.foldl (fun acc t => ExecutionDAG.markExecuting acc t.id) ⟨ts⟩).tasks
    = ts.map (fun u => if rs.any (fun v => u.id == v.id) then
        { u with status := TaskStatus.executing } else u) := by
  induction rs generalizing ts with
  | nil => simp
  | cons t rs ih =>
    rw [List.foldl_cons]
    have h1 : ExecutionDAG.markExecuting ⟨ts⟩ t.id
        = ⟨ts.map (fun u => if u.id == t.id then
            { u with status := TaskStatus.executing } else u)⟩ := rfl
    rw [h1, ih, List.map_map]
    refine List.map_congr_left ?_
    intro u _
    by_cases h : u.id == t.id
    · simp only [Function.comp_apply, if_pos h, List.any_cons, h, Bool.true_or, if_pos rfl]
      by_cases h2 : rs.any (fun v => u.id == v.id)
      · simp [h2]
      · simp [h2]
    · simp only [Function.comp_apply, if_neg h, List.any_cons]
      have hb : (u.id == t.id) = false := by simpa using h
      simp only [hb, Bool.false_or]

theorem settle_fold_eq (run : TaskRunner) (rs : List PlanNode) :
    ∀ ts : List PlanNode,
    (∀ t ∈ rs, ∀ dr, ∃ e, run t dr = Except.error e) →
    ∃ err : String → Option String,
    (rs.foldl (settleTask run) ⟨ts⟩).tasks
    = ts.map (fun u => if rs.any (fun v => u.id == v.id) then
        { u with status := TaskStatus.failed, error := err u.id } else u) := by
  induction rs with
  | nil => intro ts _; exact ⟨fun _ => none, by simp⟩
  | cons t rs ih =>
    intro ts hf
    obtain ⟨e, he⟩ := hf t (by simp) ((⟨ts⟩ : ExecutionDAG).getDependencyResults t)
    have h1 : settleTask run ⟨ts⟩ t
        = ⟨ts.map (fun u => if u.id == t.id then
            { u with status := TaskStatus.failed, error := some e } else u)⟩ := by
      rw [settleTask, he]
      rfl
    obtain ⟨err', herr'⟩ := ih _ (fun u hu => hf u (by simp [hu]))
    refine ⟨fun s => if rs.any (fun v => s == v.id) then err' s else some e, ?_⟩
    rw [List.foldl_cons, h1, herr', List.map_map]
    refine List.map_congr_left ?_
    intro u _
    by_cases h : u.id == t.id
    · simp only [Function.comp_apply, if_pos h, List.any_cons, h, Bool.true_or, if_pos rfl]
      by_cases h2 : rs.any (fun v => u.id == v.id)
      · simp [h2]
      · simp [h2]
    · simp only [Function.comp_apply, if_neg h, List.any_cons]
      have hb : (u.id == t.id) = false := by simpa using h
      simp only [hb, Bool.false_or]
      by_cases h2 : rs.any (fun v => u.id == v.id)
      · simp [h2]
      · simp [h2]

theorem mark_settle_eq (run : TaskRunner) (rs : List PlanNode) (ts : List PlanNode)
    (hf : ∀ t ∈ rs, ∀ dr, ∃ e, run t dr = Except.error e) :
    ∃ err : String → Option String,
    (rs.foldl (settleTask run)
      (rs.foldl (fun acc t => ExecutionDAG.markExecuting acc t.id) ⟨ts⟩)).tasks
    = ts.map (fun u => if rs.any (fun v => u.id == v.id) then
        { u with status := TaskStatus.failed, error := err u.id } else u) := by
  have hm := mark_fold_eq rs ts
  have hdag : rs.foldl (fun acc t => ExecutionDAG.markExecuting acc t.id) ⟨ts⟩
      = ⟨ts.map (fun u => if rs.any (fun v => u.id == v.id) then
          { u with status := TaskStatus.executing } else u)⟩ := by
    cases hd : rs.foldl (fun acc t => ExecutionDAG.markExecuting acc t.id) (⟨ts⟩ : ExecutionDAG)
    simp only [ExecutionDAG.mk.injEq]
    rw [← hm, hd]
  rw [hdag]
  obtain ⟨err, herr⟩ := settle_fold_eq run rs _ hf
  refine ⟨err, ?_⟩
  rw [herr, List.map_map]
  refine List.map_congr_left ?_
  intro u _
  by_cases h : rs.any (fun v => u.id == v.id)
  · simp only [Function.comp_apply, if_pos h]
  · simp only [Function.comp_apply, if_neg h]

theorem execIter_allfail (run : TaskRunner) (cycle : Nat) (d : ExecutionDAG)
    (hp : ∀ t ∈ d.tasks, t.status = TaskStatus.pending)
    (hn : ∃ t ∈ d.tasks, t.dependsOn = [])
    (hf : ∀ t ∈ d.tasks, ∀ dr, ∃ e, run t dr = Except.error e)
    (fuel : Nat) (prog : List AgentProgress) :
    ∃ d2, execIter run cycle (fuel + 2) d prog
      = (d2, prog ++ [⟨cycle, "EXECUTION", execProgressMsg d2⟩]) ∧
      d2.hasFailed = true ∧ d2.isComplete = false := by
  obtain ⟨t0, ht0, hdeps0⟩ := hn
  have ht0r : t0 ∈ d.getReadyTasks := by
    rw [ExecutionDAG.getReadyTasks]
    refine List.mem_filter.mpr ⟨ht0, ?_⟩
    rw [hdeps0]
    simp [hp t0 ht0]
  have hne : d.getReadyTasks.isEmpty = false := by
    cases hr : d.getReadyTasks with
    | nil => rw [hr] at ht0r; cases ht0r
    | cons a l => rfl
  have hInc : d.isComplete = false := by
    rw [ExecutionDAG.isComplete]
    refine List.all_eq_false.mpr ⟨t0, ht0, ?_⟩
    simp [hp t0 ht0]
  have hfr : ∀ t ∈ d.getReadyTasks, ∀ dr, ∃ e, run t dr = Except.error e := by
    intro t ht dr
    exact hf t (List.mem_of_mem_filter ht) dr
  obtain ⟨err, herr⟩ := mark_settle_eq run d.getReadyTasks d.tasks hfr
  have heta : (⟨d.tasks⟩ : ExecutionDAG) = d := rfl
  rw [heta] at herr
  have hanyt0 : (d.getReadyTasks.any (fun v => t0.id == v.id)) = true :=
    List.any_eq_true.mpr ⟨t0, ht0r, by simp⟩
  have hmem2 : ({ t0 with status := TaskStatus.failed, error := err t0.id } : PlanNode) ∈
      (d.getReadyTasks.foldl (settleTask run)
        (d.getReadyTasks.foldl (fun acc t => ExecutionDAG.markExecuting acc t.id) d)).tasks := by
    rw [herr]
    refine List.mem_map.mpr ⟨t0, ht0, ?_⟩
    rw [if_pos hanyt0]
  have hfail2 : (d.getReadyTasks.foldl (settleTask run)
      (d.getReadyTasks.foldl (fun acc t => ExecutionDAG.markExecuting acc t.id) d)).hasFailed
      = true := by
    rw [ExecutionDAG.hasFailed]
    exact List.any_eq_true.mpr ⟨_, hmem2, by simp⟩
  have hinc2 : (d.getReadyTasks.foldl (settleTask run)
      (d.getReadyTasks.foldl (fun acc t => ExecutionDAG.markExecuting acc t.id) d)).isComplete
      = false := by
    rw [ExecutionDAG.isComplete]
    exact List.all_eq_false.mpr ⟨_, hmem2, by simp⟩
  have hready2 : (d.getReadyTasks.foldl (settleTask run)
      (d.getReadyTasks.foldl (fun acc t => ExecutionDAG.markExecuting acc t.id) d)).getReadyTasks
      = [] := by
    rw [ExecutionDAG.getReadyTasks]
    rw [List.filter_eq_nil_iff]
    intro u' hu'
    rw [herr] at hu'
    obtain ⟨u, hu, hF⟩ := List.mem_map.mp hu'
    by_cases hc : (d.getReadyTasks.any (fun v => u.id == v.id)) = true
    · rw [if_pos hc] at hF
      rw [← hF]
      simp
    · rw [if_neg hc] at hF
      subst hF
      have hdne : u.dependsOn ≠ [] := by
        intro hnil
        refine hc (List.any_eq_true.mpr ⟨u, ?_, by simp⟩)
        rw [ExecutionDAG.getReadyTasks]
        refine List.mem_filter.mpr ⟨hu, ?_⟩
        rw [hnil]
        simp [hp u hu]
      obtain ⟨dep, hdep⟩ := List.exists_mem_of_ne_nil u.dependsOn hdne
      have hall : (u.dependsOn.all (fun depId =>
          match (d.getReadyTasks.foldl (settleTask run)
            (d.getReadyTasks.foldl (fun acc t => ExecutionDAG.markExecuting acc t.id) d)).getTask
              depId with
          | some dep => dep.status == TaskStatus.completed
          | none => false)) = false := by
        refine List.all_eq_false.mpr ⟨dep, hdep, ?_⟩
        cases hg : (d.getReadyTasks.foldl (settleTask run)
            (d.getReadyTasks.foldl (fun acc t => ExecutionDAG.markExecuting acc t.id) d)).getTask
              dep with
        | none => simp
        | some v =>
          have hv : v ∈ (d.getReadyTasks.foldl (settleTask run)
              (d.getReadyTasks.foldl (fun acc t => ExecutionDAG.markExecuting acc t.id) d)).tasks :=
            List.mem_of_find?_eq_some hg
          rw [herr] at hv
          obtain ⟨w, hw, hwv⟩ := List.mem_map.mp hv
          by_cases hcw : (d.getReadyTasks.any (fun v => w.id == v.id)) = true
          · rw [if_pos hcw] at hwv
            rw [← hwv]
            simp
          · rw [if_neg hcw] at hwv
            rw [← hwv]
            simp [hp w hw]
      rw [hall]
      simp
  refine ⟨_, ?_, hfail2, hinc2⟩
  have h2 : fuel + 2 = Nat.succ (fuel + 1) := rfl
  rw [h2, execIter, if_neg (by rw [hInc]; exact Bool.false_ne_true),
    if_neg (by rw [hne]; exact Bool.false_ne_true)]
  have h1 : fuel + 1 = Nat.succ fuel := rfl
  rw [h1, execIter, if_neg (by rw [hinc2]; exact Bool.false_ne_true),
    if_pos (by rw [hready2]; rfl)]

theorem execPhase_allfail (run : TaskRunner) (cycle : Nat) (d : ExecutionDAG)
    (hp : ∀ t ∈ d.tasks, t.status = TaskStatus.pending)
    (hn : ∃ t ∈ d.tasks, t.dependsOn = [])
    (hf : ∀ t ∈ d.tasks, ∀ dr, ∃ e, run t dr = Except.error e) :
    (executionPhase run cycle d).1.complete = false ∧
    (executionPhase run cycle d).2.1.hasFailed = true ∧
    (executionPhase run cycle d).2.1.isComplete = false := by
  obtain ⟨d2, hit, hfail2, hinc2⟩ := execIter_allfail run cycle d hp hn hf 48 []
  rw [executionPhase]
  have h50 : (50 : Nat) = 48 + 2 := rfl
  rw [h50, hit]
  simp [hinc2, hfail2]

theorem plannedDag_pending (planner : Nat → String → List PlanNode) (k : Nat) (ctx : String) :
    ∀ t ∈ (plannedDag planner k ctx).tasks, t.status = TaskStatus.pending := by
  intro t ht
  rw [plannedDag] at ht
  have hmem := ofTasks_mem _ t ht
  obtain ⟨u, _, hu⟩ := List.mem_map.mp hmem
  rw [← hu]

theorem controllerStep_allfail (planner : Nat → String → List PlanNode) (run : TaskRunner)
    (hA : AlwaysFailingPlans planner run) (st : CycleState)
    (hnp : needsPlanning st.dag = true) :
    ∃ st', controllerStep planner run st = StepOut.next st' ∧
      needsPlanning st'.dag = true ∧
      st'.cycle = st.cycle + 1 ∧
      st'.calls.length = st.calls.length + 1 := by
  obtain ⟨hv, ⟨ls, hls⟩, hn0, hf0⟩ := hA (st.calls.length + 1) (planContext st.dag)
  have hplan : planningPhase planner (st.calls.length + 1) st.dag
      = Except.ok (plannedDag planner (st.calls.length + 1) (planContext st.dag)) := by
    simp only [planningPhase]
    rw [if_pos hv, hls]
  have hpend := plannedDag_pending planner (st.calls.length + 1) (planContext st.dag)
  obtain ⟨hep1, hep2, hep3⟩ := execPhase_allfail run (st.cycle + 1)
    (plannedDag planner (st.calls.length + 1) (planContext st.dag)) hpend hn0 hf0
  have hsr : shouldReplan
      (executionPhase run (st.cycle + 1)
        (plannedDag planner (st.calls.length + 1) (planContext st.dag))).2.1
      (executionPhase run (st.cycle + 1)
        (plannedDag planner (st.calls.length + 1) (planContext st.dag))).1.complete = true := by
    rw [shouldReplan, if_pos hep2]
  refine ⟨⟨st.cycle + 1,
    some (executionPhase run (st.cycle + 1)
      (plannedDag planner (st.calls.length + 1) (planContext st.dag))).2.1,
    ((st.progress ++ [⟨st.cycle + 1, "PLANNING", "Created plan with " ++
        toString (plannedDag planner (st.calls.length + 1) (planContext st.dag)).tasks.length ++
        " tasks"⟩]) ++
      (executionPhase run (st.cycle + 1)
        (plannedDag planner (st.calls.length + 1) (planContext st.dag))).2.2) ++
      [⟨st.cycle + 1, "REPLANNING", "Replanning triggered due to failures"⟩],
    st.calls ++ [(st.calls.length + 1, planContext st.dag)]⟩, ?_, ?_, rfl, by simp⟩
  · simp only [controllerStep, hnp, hplan, if_true]
    rw [if_neg (by rw [hep1]; exact Bool.false_ne_true), if_pos hsr]
  · simp only [needsPlanning, hep2, Bool.or_true]

theorem controllerLoop_allfail (planner : Nat → String → List PlanNode) (run : TaskRunner)
    (hA : AlwaysFailingPlans planner run) :
    ∀ (fuel : Nat) (st : CycleState), needsPlanning st.dag = true →
    ∃ st', controllerLoop planner run fuel st = (Except.ok none, st') ∧
      st'.cycle = st.cycle + fuel ∧ st'.calls.length = st.calls.length + fuel := by
  intro fuel
  induction fuel with
  | zero => intro st _; exact ⟨st, rfl, rfl, rfl⟩
  | succ fuel ih =>
    intro st hnp
    obtain ⟨st1, hstep, hnp1, hc1, hl1⟩ := controllerStep_allfail planner run hA st hnp
    obtain ⟨st', hloop, hc', hl'⟩ := ih st1 hnp1
    refine ⟨st', ?_, ?_, ?_⟩
    · rw [controllerLoop, hstep]
      exact hloop
    · rw [hc', hc1]
      omega
    · rw [hl', hl1]
      omega

/-- C7 (amended): under the stub-planner condition `AlwaysFailingPlans`, the
controller exhausts exactly its configured cycle budget `m`, invoking the
planner once per cycle, and returns the structured budget-exhaustion outcome. -/
theorem C7_budget_exhaustion (planner : Nat → String → List PlanNode) (run : TaskRunner)
    (m : Nat) (hA : AlwaysFailingPlans planner run) :
    (ControllerExecute planner run m).1.success = false ∧
    (ControllerExecute planner run m).1.result =
      "Error: Goal not completed within " ++ toString m ++ " execution cycles" ∧
    (ControllerExecute planner run m).2.cycle = m ∧
    (ControllerExecute planner run m).2.calls.length = m := by
  obtain ⟨st', hloop, hc, hl⟩ :=
    controllerLoop_allfail planner run hA m ⟨0, none, [], []⟩ rfl
  have hc2 : st'.cycle = m := by simpa using hc
  have hl2 : st'.calls.length = m := by simpa using hl
  rw [ControllerExecute]
  simp only [hloop]
  exact ⟨by trivial, by trivial, hc2, hl2⟩

theorem C7_budget_exhaustion_witness :
    (ControllerExecute planner7 run7 3).1.success = false ∧
    (ControllerExecute planner7 run7 3).1.result =
      "Error: Goal not completed within " ++ toString 3 ++ " execution cycles" ∧
    (ControllerExecute planner7 run7 3).2.cycle = 3 ∧
    (ControllerExecute planner7 run7 3).2.calls.length = 3 :=
  C7_budget_exhaustion planner7 run7 3
    (fun _ _ => ⟨(by decide : (plannedDag planner7 1 "").validate.valid = true),
      ⟨[[fTask8]],
        (by decide : (plannedDag planner7 1 "").getExecutionLayers = Except.ok [[fTask8]])⟩,
      ⟨fTask8, (by decide : fTask8 ∈ (plannedDag planner7 1 "").tasks), rfl⟩,
      fun t ht dr => ⟨"boom", rfl⟩⟩)

/-- C7 counterexample: a planner whose every plan contains the always-failing
task `f1` but also a task with a nonexistent dependency makes the controller
stop in failure after one cycle (one planner call), not after the configured
maximum of 3 cycles. -/
theorem C7_counterexample :
    (∀ k ctx, ∃ t ∈ planner7c k ctx, t.id = "f1" ∧
      (∀ dr, ∃ e, run7 t dr = Except.error e)) ∧
    (ControllerExecute planner7c run7 3).1.success = false ∧
    (ControllerExecute planner7c run7 3).1.result =
      "Error: Invalid DAG: Task \"h1\" depends on non-existent task \"ghost\"" ∧
    (ControllerExecute planner7c run7 3).2.cycle = 1 ∧
    (ControllerExecute planner7c run7 3).2.calls.length = 1 ∧
    (1 : Nat) ≠ 3 :=
  ⟨fun k ctx => ⟨fTask8, List.mem_cons_self fTask8 [hTask7], rfl, fun dr => ⟨"boom", rfl⟩⟩,
    by decide, by decide, by decide, by decide, by decide⟩

/-- C8: with a planner failing on call 1 and succeeding on call 2, the
controller succeeds after exactly 2 cycles and the second planning prompt
names the failed task's id, action and error. -/
theorem C8_two_cycle_replan :
    (ControllerExecute planner8 run8 10).1.success = true ∧
    (ControllerExecute planner8 run8 10).1.result = "ok" ∧
    (ControllerExecute planner8 run8 10).2.cycle = 2 ∧
    (ControllerExecute planner8 run8 10).2.calls.map Prod.fst = [1, 2] ∧
    (∀ c ∈ (ControllerExecute planner8 run8 10).2.calls, c.1 = 2 →
      strOccurs "f1" c.2 = true ∧ strOccurs "act f" c.2 = true ∧
      strOccurs "boom" c.2 = true) := by decide

theorem controllerLoop_deadlock (fuel : Nat) :
    ∀ (c : Nat) (prog : List AgentProgress),
    (controllerLoop planner5 run5 fuel ⟨c, some deadDag, prog, []⟩).1 = Except.ok none ∧
    (controllerLoop planner5 run5 fuel ⟨c, some deadDag, prog, []⟩).2.dag = some deadDag ∧
    (controllerLoop planner5 run5 fuel ⟨c, some deadDag, prog, []⟩).2.calls = [] := by
  induction fuel with
  | zero => intro c prog; exact ⟨rfl, rfl, rfl⟩
  | succ fuel ih =>
    intro c prog
    have hone : controllerLoop planner5 run5 (fuel + 1) ⟨c, some deadDag, prog, []⟩
        = controllerLoop planner5 run5 fuel ⟨c + 1, some deadDag,
            (prog ++ []) ++ [⟨c + 1, "REPLANNING", "Replanning triggered due to failures"⟩], []⟩ := rfl
    rw [hone]
    exact ih (c + 1) _

/-- C5: the deadlocked graph `deadDag` (incomplete, no failures, no ready
tasks) triggers the replan condition, yet the next cycle's planning guard is
false: the step keeps the same graph instance, never invokes the planner, and
the loop spins to budget exhaustion with the old graph still installed. -/
theorem C5_replan_replaces_graph (fuel : Nat) :
    shouldReplan deadDag false = true ∧
    needsPlanning (some deadDag) = false ∧
    controllerStep planner5 run5 ⟨1, some deadDag, [], []⟩ =
      StepOut.next ⟨2, some deadDag,
        [⟨2, "REPLANNING", "Replanning triggered due to failures"⟩], []⟩ ∧
    (controllerLoop planner5 run5 fuel ⟨1, some deadDag, [], []⟩).1 = Except.ok none ∧
    (controllerLoop planner5 run5 fuel ⟨1, some deadDag, [], []⟩).2.dag = some deadDag ∧
    (controllerLoop planner5 run5 fuel ⟨1, some deadDag, [], []⟩).2.calls = [] := by
  obtain ⟨h1, h2, h3⟩ := controllerLoop_deadlock fuel 1 []
  exact ⟨by decide, by decide, by decide, h1, h2, h3⟩
